import Mathlib

/-!
Verification development for the Eurostat transport/climate data pipeline
(`script/clean_data.py` and the aggregation/trend part of
`script/plot_scatter.py`).

Tables (pandas `DataFrame`s) are embedded shallowly: a cell is a string, an
exact rational number (standing for the float actually stored), or the
missing value `NaN`/`None`; a row is an association list from column names to
cells; a table carries its column list (schema) plus its rows.  Fallible
pandas operations (`merge` or `groupby` on a missing column raise `KeyError`)
return `Option`.
-/

/-- A cell of a data frame: a string, a (rational-valued) number, or a
missing value (pandas `NaN`). -/
inductive Cell
  | vstr (s : String)
  | vnum (q : ℚ)
  | vna
deriving DecidableEq

/-- A row is an association list from column names to cells.  In a
well-formed frame the keys of every row are exactly the column list. -/
abbrev Row := List (String × Cell)

/-- Look a column up in a row (first matching entry). -/
def Row.get (r : Row) (k : String) : Cell :=
  match r.find? (fun p => p.1 == k) with
  | some p => p.2
  | none => Cell.vna

/-- A data frame: a schema (column-name list) and a list of rows. -/
structure Frame where
  cols : List String
  rows : List Row
deriving DecidableEq

/-- Well-formedness: every row has exactly the frame's columns as keys, in
schema order (as in a pandas `DataFrame`). -/
def Frame.wf (t : Frame) : Prop :=
  ∀ r ∈ t.rows, r.map Prod.fst = t.cols

instance (t : Frame) : Decidable t.wf := by
  unfold Frame.wf; exact List.decidableBAll _ _

/-! ### Numeric coercion, modelling `pd.to_numeric(..., errors="coerce")` -/

/-- Value of a decimal digit character. -/
def digitVal (c : Char) : Option Nat :=
  if c.isDigit then some (c.toNat - 48) else none

/-- Accumulate a digit string into a natural number; fails on a non-digit. -/
def parseDigitsAux : List Char → Nat → Option Nat
  | [], acc => some acc
  | c :: cs, acc =>
    match digitVal c with
    | some d => parseDigitsAux cs (acc * 10 + d)
    | none => none

/-- Parse a non-empty digit string. -/
def parseDigits (cs : List Char) : Option Nat :=
  match cs with
  | [] => none
  | _ => parseDigitsAux cs 0

/-- Split a character list at the first occurrence of `sep`. -/
def splitOnChar (sep : Char) : List Char → List Char × Option (List Char)
  | [] => ([], none)
  | c :: rest =>
    if c = sep then ([], some rest)
    else
      let (a, b) := splitOnChar sep rest
      (c :: a, b)

/-- Parse an unsigned decimal mantissa: digits, optionally with a decimal
point (`"12"`, `"12.5"`, `"12."`, `".5"`). -/
def parseMantissa (cs : List Char) : Option ℚ :=
  match splitOnChar '.' cs with
  | (intPart, none) => (parseDigits intPart).map (fun n => (n : ℚ))
  | (intPart, some fracPart) =>
    if intPart.isEmpty ∧ fracPart.isEmpty then none
    else do
      let i ← if intPart.isEmpty then pure 0 else parseDigits intPart
      let f ← if fracPart.isEmpty then pure 0 else parseDigits fracPart
      pure ((i : ℚ) + (f : ℚ) / ((10 : ℚ) ^ fracPart.length))

/-- Parse a decimal number the way `pd.to_numeric` reads a string cell:
optional sign, decimal mantissa, optional decimal exponent
(`"-12.5"`, `"1e3"`, `"2.5E-2"`).  A string that does not parse yields
`none` (coerced to `NaN` by `toNumeric`). -/
def parseRat (s : String) : Option ℚ :=
  let cs := s.data.map (fun c => if c = 'E' then 'e' else c)
  let (sign, cs2) : ℚ × List Char :=
    match cs with
    | '-' :: rest => (-1, rest)
    | '+' :: rest => (1, rest)
    | _ => (1, cs)
  match splitOnChar 'e' cs2 with
  | (m, none) => (parseMantissa m).map (fun q => sign * q)
  | (m, some e) => do
    let q ← parseMantissa m
    let (esign, e2) : ℤ × List Char :=
      match e with
      | '-' :: rest => (-1, rest)
      | '+' :: rest => (1, rest)
      | _ => (1, e)
    let k ← parseDigits e2
    pure (sign * q * (10 : ℚ) ^ (esign * (k : ℤ)))

/-- Cell-level `pd.to_numeric(..., errors="coerce")`: numbers stay, strings
are parsed (unparseable ones become `NaN`), missing stays missing. -/
def toNumeric : Cell → Cell
  | Cell.vnum q => Cell.vnum q
  | Cell.vna => Cell.vna
  | Cell.vstr s =>
    match parseRat s with
    | some q => Cell.vnum q
    | none => Cell.vna

/-- Truncation toward zero, as in `Series.astype(int)` on a float column. -/
def ratTrunc (q : ℚ) : ℤ := q.num / (q.den : ℤ)

/-- Cell-level `astype(int)`: truncate a numeric cell toward zero.  (In the
pipeline this is only applied after `dropna`, so no `NaN` reaches it.) -/
def castInt : Cell → Cell
  | Cell.vnum q => Cell.vnum ((ratTrunc q : ℤ) : ℚ)
  | c => c

/-- Pandas equality comparison of a cell against a string literal
(`df[col] == "s"`): true only for an equal string; numbers and `NaN`
compare false. -/
def cellEqStr : Cell → String → Bool
  | Cell.vstr t, s => t == s
  | _, _ => false

/-- Is the cell a number?  Used to state the numeric-cells invariant of an
integrated frame decidably. -/
def Cell.isNum : Cell → Bool
  | Cell.vnum _ => true
  | _ => false

/-! ### Frame operations -/

/-- Boolean row filtering, `df[mask]`. -/
def Frame.filterRows (t : Frame) (p : Row → Bool) : Frame :=
  { cols := t.cols, rows := t.rows.filter p }

/-- Column projection `df[cs]` (the caller only passes present columns). -/
def Frame.select (t : Frame) (cs : List String) : Frame :=
  { cols := cs, rows := t.rows.map (fun r => cs.map (fun c => (c, Row.get r c))) }

/-- Apply a rename map to one column name (`df.rename(columns=m)` keeps
names that are not in the map). -/
def renameStr (m : List (String × String)) (c : String) : String :=
  match m.find? (fun p => p.1 == c) with
  | some p => p.2
  | none => c

/-- Column renaming, `df.rename(columns=m)`. -/
def Frame.rename (t : Frame) (m : List (String × String)) : Frame :=
  { cols := t.cols.map (renameStr m),
    rows := t.rows.map (fun r => r.map (fun p => (renameStr m p.1, p.2))) }

/-- Apply `f` to the cells of column `c` of a row. -/
def Row.mapCol (r : Row) (c : String) (f : Cell → Cell) : Row :=
  r.map (fun p => if p.1 = c then (p.1, f p.2) else p)

/-- Column-wise transformation, `df[c] = f(df[c])`. -/
def Frame.mapCol (t : Frame) (c : String) (f : Cell → Cell) : Frame :=
  { cols := t.cols, rows := t.rows.map (fun r => Row.mapCol r c f) }

/-- `df.dropna(subset=cs)`: keep the rows whose cells at all of `cs` are
non-missing.  (The sources always guard `cs ⊆ df.columns` first.) -/
def Frame.dropnaSubset (t : Frame) (cs : List String) : Frame :=
  { cols := t.cols,
    rows := t.rows.filter (fun r => cs.all (fun c => decide (Row.get r c ≠ Cell.vna))) }

/-! ### Inner merge, modelling `DataFrame.merge(..., on=keys, how="inner")` -/

/-- Non-key columns occurring in both frames; these get suffixed. -/
def overlapCols (l r : Frame) (keys : List String) : List String :=
  l.cols.filter (fun c => r.cols.contains c && !keys.contains c)

/-- Suffix a column name when it is an overlapping one. -/
def suffixCol (ov : List String) (suf : String) (c : String) : String :=
  if ov.contains c then c ++ suf else c

/-- Columns of the merged frame: the left columns (suffixed where
overlapping) then the right non-key columns (suffixed where overlapping). -/
def mergeCols (l r : Frame) (keys : List String) (sl sr : String) : List String :=
  let ov := overlapCols l r keys
  (l.cols.map (suffixCol ov sl)) ++
    ((r.cols.filter (fun c => !keys.contains c)).map (suffixCol ov sr))

/-- Do two rows agree on all the key columns? -/
def keysMatch (keys : List String) (lr rr : Row) : Bool :=
  keys.all (fun k => decide (Row.get lr k = Row.get rr k))

/-- Combine a matching pair of rows: left entries (keys suffixed where
overlapping) followed by the right non-key entries. -/
def combineRow (lr rr : Row) (ov keys : List String) (sl sr : String) : Row :=
  (lr.map (fun p => (suffixCol ov sl p.1, p.2))) ++
    ((rr.filter (fun p => !keys.contains p.1)).map (fun p => (suffixCol ov sr p.1, p.2)))

/-- Inner merge on `keys`.  Pandas raises `KeyError` when a key column is
missing from either frame, modelled by `none`. -/
def Frame.merge (l r : Frame) (keys : List String) (sl sr : String) : Option Frame :=
  if keys.all (fun k => l.cols.contains k) && keys.all (fun k => r.cols.contains k) then
    let ov := overlapCols l r keys
    some
      { cols := mergeCols l r keys sl sr,
        rows := l.rows.flatMap (fun lr =>
          (r.rows.filter (fun rr => keysMatch keys lr rr)).map
            (fun rr => combineRow lr rr ov keys sl sr)) }
  else none

/-! ### Source normalizers (`script/clean_data.py`) -/

/-- Categorical filter of `clean_buses_trains` (line 60–61): keep the rows
with `vehicle == "TRN_BUS_TOT_AVD"`, skipped when the column is absent. -/
def btFilter (df : Frame) : Frame :=
  if "vehicle" ∈ df.cols then
    df.filterRows (fun r => cellEqStr (Row.get r "vehicle") "TRN_BUS_TOT_AVD")
  else df

/-- Shared normalizer tail, stage 1: `df[present]` where `present` keeps
the desired columns actually in the frame (each cleaner's
`present = [c for c in desired if c in df.columns]` projection). -/
def selectPresent (desired : List String) (t : Frame) : Frame :=
  t.select (desired.filter (fun c => t.cols.contains c))

/-- Shared normalizer tail, stage 2: the `df.rename(columns=...)` common to
the three cleaners, with the `OBS_VALUE` target name varying per source. -/
def renameCore (valueCol : String) (t : Frame) : Frame :=
  t.rename [("geo", "country"), ("TIME_PERIOD", "year"), ("OBS_VALUE", valueCol)]

/-- Shared normalizer tail, stage 3: coerce `year` to numeric, drop rows
with unparseable years, cast to int — skipped if `year` is absent. -/
def coerceYear (t : Frame) : Frame :=
  if "year" ∈ t.cols then
    ((t.mapCol "year" toNumeric).dropnaSubset ["year"]).mapCol "year" castInt
  else t

/-- Shared normalizer tail, stage 4: coerce the indicator column to float
(`errors="coerce"`), skipped if absent.  Note: no `dropna` follows. -/
def coerceValue (valueCol : String) (t : Frame) : Frame :=
  if valueCol ∈ t.cols then t.mapCol valueCol toNumeric else t

/-- The select/rename/coerce tail each cleaner applies after its
categorical filter (clean_data.py lines 62–84, 101–122 and 142–164 repeat
this block with different `desired` lists and indicator names). -/
def cleanTail (desired : List String) (valueCol : String) (df1 : Frame) : Frame :=
  coerceValue valueCol (coerceYear (renameCore valueCol (selectPresent desired df1)))

/-- `clean_buses_trains` (clean_data.py lines 53–84). -/
def clean_buses_trains (df : Frame) : Frame :=
  cleanTail ["geo", "TIME_PERIOD", "OBS_VALUE", "OBS_FLAG", "vehicle"]
    "share_buses_trains" (btFilter df)

/-- Categorical filters of `clean_greenhouse_gas` (lines 94–100): keep
`unit == "T_HAB"` then `src_crf == "TOTXMEMO"`, each only when its column is
present. -/
def ghgFilter (df : Frame) : Frame :=
  let d1 :=
    if "unit" ∈ df.cols then df.filterRows (fun r => cellEqStr (Row.get r "unit") "T_HAB")
    else df
  if "src_crf" ∈ d1.cols then
    d1.filterRows (fun r => cellEqStr (Row.get r "src_crf") "TOTXMEMO")
  else d1

/-- `clean_greenhouse_gas` (clean_data.py lines 87–122). -/
def clean_greenhouse_gas (df : Frame) : Frame :=
  cleanTail ["geo", "TIME_PERIOD", "OBS_VALUE", "OBS_FLAG", "unit"]
    "ghg_per_capita" (ghgFilter df)

/-- Categorical filters of `clean_road_emissions` (lines 137–140): keep
`indic_env == "AEMIS_RES"` and `airpol == "CO2"`, then `unit == "KG_HAB"`
only when the `unit` column is present. -/
def roadFilter (df : Frame) : Frame :=
  let d1 := df.filterRows (fun r =>
    cellEqStr (Row.get r "indic_env") "AEMIS_RES" && cellEqStr (Row.get r "airpol") "CO2")
  if "unit" ∈ d1.cols then
    d1.filterRows (fun r => cellEqStr (Row.get r "unit") "KG_HAB")
  else d1

/-- The empty frame returned by `clean_road_emissions` when a discriminator
column is missing (line 135). -/
def roadEmptyFrame : Frame :=
  { cols := ["country", "year", "road_co2_per_capita_g", "OBS_FLAG", "unit",
             "indic_env", "airpol"],
    rows := [] }

/-- `clean_road_emissions` (clean_data.py lines 125–164). -/
def clean_road_emissions (df : Frame) : Frame :=
  if "indic_env" ∉ df.cols ∨ "airpol" ∉ df.cols then roadEmptyFrame
  else
    cleanTail ["geo", "TIME_PERIOD", "OBS_VALUE", "OBS_FLAG", "unit",
               "indic_env", "airpol"]
      "road_co2_per_capita_g" (roadFilter df)

/-! ### Integrator (`integrate_datasets`, clean_data.py lines 167–191) -/

/-- The three indicator columns required of an integrated row. -/
def requiredIndicators : List String :=
  ["share_buses_trains", "ghg_per_capita", "road_co2_per_capita_g"]

/-- `integrate_datasets`: inner-join `buses_trains` with `greenhouse_gas`
(suffixes `"_bt"`, `"_ghg"`), then with `road_emissions` (default suffixes
`"_x"`, `"_y"`), then drop rows missing an indicator value.  A `KeyError`
from a merge on absent key columns is modelled by `none`. -/
def integrate_datasets (bt ghg road : Frame) : Option Frame :=
  match Frame.merge bt ghg ["country", "year"] "_bt" "_ghg" with
  | none => none
  | some m1 =>
    match Frame.merge m1 road ["country", "year"] "_x" "_y" with
    | none => none
    | some m2 =>
      let presentRequired := requiredIndicators.filter (fun c => m2.cols.contains c)
      some (if presentRequired.isEmpty then m2 else m2.dropnaSubset presentRequired)

/-! ### Country aggregation (`plot_scatter.py` main, lines 42–57) -/

/-- Numeric values of column `c` over a list of rows; pandas aggregations
(`mean`, `min`, `max`, `nunique`) skip missing values. -/
def numVals (rows : List Row) (c : String) : List ℚ :=
  rows.filterMap (fun r =>
    match Row.get r c with
    | Cell.vnum q => some q
    | _ => none)

/-- Group mean of a column (`NaN` when no numeric value is present, as in
pandas). -/
def colMean (rows : List Row) (c : String) : Cell :=
  match numVals rows c with
  | [] => Cell.vna
  | v :: vs => Cell.vnum ((v :: vs).sum / (((v :: vs).length : ℕ) : ℚ))

/-- Group minimum of a column. -/
def colMin (rows : List Row) (c : String) : Cell :=
  match numVals rows c with
  | [] => Cell.vna
  | v :: vs => Cell.vnum (vs.foldl min v)

/-- Group maximum of a column. -/
def colMax (rows : List Row) (c : String) : Cell :=
  match numVals rows c with
  | [] => Cell.vna
  | v :: vs => Cell.vnum (vs.foldl max v)

/-- Group `nunique` of a column: number of distinct non-missing values. -/
def colNunique (rows : List Row) (c : String) : Cell :=
  Cell.vnum (((numVals rows c).dedup.length : ℕ) : ℚ)

/-- Cell-level division by `1000.0` (`grp[c] / 1000.0`); `NaN` stays `NaN`.
The column it is applied to holds only means, hence numbers or `NaN`. -/
def cellDiv1000 : Cell → Cell
  | Cell.vnum q => Cell.vnum (q / 1000)
  | _ => Cell.vna

/-- A total comparison on cells, used to model the ascending key sort of
`groupby` (group keys in this pipeline are country strings). -/
def cellLe : Cell → Cell → Bool
  | Cell.vna, _ => true
  | _, Cell.vna => false
  | Cell.vnum a, Cell.vnum b => decide (a ≤ b)
  | Cell.vnum _, Cell.vstr _ => true
  | Cell.vstr _, Cell.vnum _ => false
  | Cell.vstr a, Cell.vstr b => decide (a ≤ b)

/-- Insertion into an ascending list (insertion sort step). -/
def insertAsc (x : Cell) : List Cell → List Cell
  | [] => [x]
  | y :: ys => if cellLe x y then x :: y :: ys else y :: insertAsc x ys

/-- Ascending insertion sort of group keys. -/
def sortCells (l : List Cell) : List Cell := l.foldr insertAsc []

/-- The group keys of `df.groupby("country")`: the distinct non-missing
values of the `country` column, in ascending order (`groupby` sorts keys and
drops `NaN` keys). -/
def groupKeys (t : Frame) : List Cell :=
  sortCells ((t.rows.filterMap (fun r =>
    match Row.get r "country" with
    | Cell.vna => none
    | c => some c)).dedup)

/-- The rows of the group of key `k`. -/
def groupRows (t : Frame) (k : Cell) : List Row :=
  t.rows.filter (fun r => decide (Row.get r "country" = k))

/-- One per-country summary row, as produced by
`groupby("country").agg(...).reset_index()` followed by the
grams-to-kilograms conversion column (plot_scatter.py lines 47–57). -/
def summaryRow (t : Frame) (k : Cell) : Row :=
  let g := groupRows t k
  let meanG := colMean g "road_co2_per_capita_g"
  [("country", k),
   ("share_buses_trains", colMean g "share_buses_trains"),
   ("road_co2_per_capita_g", meanG),
   ("ghg_per_capita", colMean g "ghg_per_capita"),
   ("year_min", colMin g "year"),
   ("year_max", colMax g "year"),
   ("years_count", colNunique g "year"),
   ("road_co2_per_capita_kg", cellDiv1000 meanG)]

/-- Columns the aggregation block reads; `groupby`/`agg` raise `KeyError`
when one is missing. -/
def aggNeededCols : List String :=
  ["country", "share_buses_trains", "road_co2_per_capita_g", "ghg_per_capita", "year"]

/-- Schema of the aggregated frame. -/
def aggOutCols : List String :=
  ["country", "share_buses_trains", "road_co2_per_capita_g", "ghg_per_capita",
   "year_min", "year_max", "years_count", "road_co2_per_capita_kg"]

/-- One step of the coercion loop of `plot_scatter.main` (lines 42–44):
`if col in df.columns: df[col] = pd.to_numeric(df[col], errors="coerce")`. -/
def coerceNumericCol (t : Frame) (c : String) : Frame :=
  if c ∈ t.cols then t.mapCol c toNumeric else t

/-- The whole coercion loop over the four numeric columns, in source
order. -/
def coerceNumericCols (t : Frame) : Frame :=
  coerceNumericCol (coerceNumericCol (coerceNumericCol
    (coerceNumericCol t "share_buses_trains") "road_co2_per_capita_g")
    "ghg_per_capita") "year"

/-- The aggregation block of `plot_scatter.main` (lines 42–57): coerce the
four numeric columns (each if present), group by `country`, aggregate the
three indicator means plus `year` min/max/nunique, and append the
kilogram conversion of the road indicator.  A `KeyError` from `groupby`
or `agg` on a missing column is modelled by `none`. -/
def aggregateCountry (t0 : Frame) : Option Frame :=
  if aggNeededCols.all (fun c => (coerceNumericCols t0).cols.contains c) then
    some { cols := aggOutCols,
           rows := (groupKeys (coerceNumericCols t0)).map (summaryRow (coerceNumericCols t0)) }
  else none

/-! ### Trend estimator (`plot_scatter.py` main, lines 176–217) -/

/-- Result of the linear-trend fit: slope, intercept and R². -/
structure TrendResult where
  slope : ℚ
  intercept : ℚ
  r2 : ℚ
deriving DecidableEq

/-- The (x, y) pairs the regression uses: rows of the summary whose
`share_buses_trains` and `road_co2_per_capita_kg` are both finite numbers
(`mask = np.isfinite(x) & np.isfinite(y)`). -/
def finitePairs (t : Frame) : List (ℚ × ℚ) :=
  t.rows.filterMap (fun r =>
    match Row.get r "share_buses_trains", Row.get r "road_co2_per_capita_kg" with
    | Cell.vnum x, Cell.vnum y => some (x, y)
    | _, _ => none)

/-- Total sum of squares of the y values, `np.sum((ym - np.mean(ym))**2)`. -/
def ssTot (ps : List (ℚ × ℚ)) : ℚ :=
  let ys := ps.map Prod.snd
  let n : ℚ := (ys.length : ℕ)
  (ys.map (fun y => (y - ys.sum / n) ^ 2)).sum

/-- Residual sum of squares for a given line,
`np.sum((ym - (slope*xm + intercept))**2)`. -/
def ssRes (ps : List (ℚ × ℚ)) (slope intercept : ℚ) : ℚ :=
  (ps.map (fun p => (p.2 - (slope * p.1 + intercept)) ^ 2)).sum

/-- The trend block of `plot_scatter.main` (lines 176–217): collect finite
(x, y) pairs; with fewer than 2 pairs (or a missing column, whose
`KeyError` the surrounding `try` swallows) no trend is produced; otherwise
fit the least-squares line (`np.polyfit(xm, ym, 1)`) and set
`r2 = 1 - ss_res/ss_tot if ss_tot != 0 else 0.0`.  When the design matrix
is rank-deficient (all x equal) `polyfit` falls back to a pseudo-inverse
least-squares solution; every exact solution predicts the mean of y at the
common x, and we take the minimum-norm one. -/
def fitTrend (t : Frame) : Option TrendResult :=
  if "share_buses_trains" ∈ t.cols ∧ "road_co2_per_capita_kg" ∈ t.cols then
    let ps := finitePairs t
    if ps.length < 2 then none
    else
      let n : ℚ := (ps.length : ℕ)
      let sx := (ps.map Prod.fst).sum
      let sy := (ps.map Prod.snd).sum
      let sxx := (ps.map (fun p => p.1 * p.1)).sum
      let sxy := (ps.map (fun p => p.1 * p.2)).sum
      let d := n * sxx - sx * sx
      let x0 := ((ps.head?).map Prod.fst).getD 0
      let slope := if d ≠ 0 then (n * sxy - sx * sy) / d else x0 * (sy / n) / (x0 * x0 + 1)
      let intercept := if d ≠ 0 then (sy - slope * sx) / n else (sy / n) / (x0 * x0 + 1)
      let st := ssTot ps
      let r2 := if st ≠ 0 then 1 - ssRes ps slope intercept / st else 0
      some { slope := slope, intercept := intercept, r2 := r2 }
  else none

/-- The wholly empty frame (no columns, no rows), i.e. `pd.DataFrame()`. -/
def emptyFrame : Frame := { cols := [], rows := [] }

/-- A (country, year) key is present in a frame. -/
def Frame.hasKey (t : Frame) (c y : Cell) : Prop :=
  ∃ r ∈ t.rows, Row.get r "country" = c ∧ Row.get r "year" = y

instance (t : Frame) (c y : Cell) : Decidable (t.hasKey c y) := by
  unfold Frame.hasKey; exact List.decidableBEx _ _

/-- Numeric content of a cell (`0` for non-numbers); used to state
aggregation results over cells already known to be numeric. -/
def qOf : Cell → ℚ
  | Cell.vnum q => q
  | _ => 0

/-- No string becomes `k` when `s` is appended to it; this is how the merge
suffixes are shown not to capture a key or indicator column name. -/
def keyNoClash (s k : String) : Prop := ∀ c : String, c ++ s ≠ k

/-- The buses/trains input of the C1 witness; its `FR` row carries a
missing indicator value, as an un-dropped parse failure would. -/
def c1BT : Frame :=
  Frame.mk ["country", "year", "share_buses_trains"]
    [[("country", Cell.vstr "DE"), ("year", Cell.vnum 2019),
      ("share_buses_trains", Cell.vnum 40)],
     [("country", Cell.vstr "FR"), ("year", Cell.vnum 2019),
      ("share_buses_trains", Cell.vna)]]

/-- The greenhouse-gas input of the C1 witness. -/
def c1GHG : Frame :=
  Frame.mk ["country", "year", "ghg_per_capita"]
    [[("country", Cell.vstr "DE"), ("year", Cell.vnum 2019),
      ("ghg_per_capita", Cell.vnum 8)],
     [("country", Cell.vstr "FR"), ("year", Cell.vnum 2019),
      ("ghg_per_capita", Cell.vnum 7)]]

/-- The road-emissions input of the C1 witness. -/
def c1Road : Frame :=
  Frame.mk ["country", "year", "road_co2_per_capita_g"]
    [[("country", Cell.vstr "DE"), ("year", Cell.vnum 2019),
      ("road_co2_per_capita_g", Cell.vnum 1800)],
     [("country", Cell.vstr "FR"), ("year", Cell.vnum 2019),
      ("road_co2_per_capita_g", Cell.vnum 500)]]

/-- The integrated output of the C1 witness: the `FR` row, whose indicator
is missing, is dropped by the Integrator. -/
def c1Out : Frame :=
  Frame.mk
    ["country", "year", "share_buses_trains", "ghg_per_capita", "road_co2_per_capita_g"]
    [[("country", Cell.vstr "DE"), ("year", Cell.vnum 2019),
      ("share_buses_trains", Cell.vnum 40), ("ghg_per_capita", Cell.vnum 8),
      ("road_co2_per_capita_g", Cell.vnum 1800)]]

/-- Concrete integrated frame used by the C5 witness: two `DE` years and a
single `FR` year. -/
def c5Frame : Frame :=
  Frame.mk ["country", "year", "share_buses_trains", "road_co2_per_capita_g",
    "ghg_per_capita"]
    [[("country", Cell.vstr "DE"), ("year", Cell.vnum 2015),
      ("share_buses_trains", Cell.vnum 40), ("road_co2_per_capita_g", Cell.vnum 1000),
      ("ghg_per_capita", Cell.vnum 8)],
     [("country", Cell.vstr "DE"), ("year", Cell.vnum 2018),
      ("share_buses_trains", Cell.vnum 50), ("road_co2_per_capita_g", Cell.vnum 2000),
      ("ghg_per_capita", Cell.vnum 10)],
     [("country", Cell.vstr "FR"), ("year", Cell.vnum 2019),
      ("share_buses_trains", Cell.vnum 30), ("road_co2_per_capita_g", Cell.vnum 500),
      ("ghg_per_capita", Cell.vnum 7)]]

/-! ### Basic lemmas about rows and frames -/

theorem Row.get_nil (k : String) : Row.get [] k = Cell.vna := rfl

theorem Row.get_cons (p : String × Cell) (r : Row) (k : String) :
    Row.get (p :: r) k = if p.1 = k then p.2 else Row.get r k := by
  by_cases h : p.1 = k <;> simp [Row.get, List.find?_cons, h]

theorem Frame.cols_filterRows (t : Frame) (p : Row → Bool) :
    (t.filterRows p).cols = t.cols := rfl

theorem Frame.rows_filterRows (t : Frame) (p : Row → Bool) :
    (t.filterRows p).rows = t.rows.filter p := rfl

/-- A filter applied twice is the same as applied once. -/
theorem List.filter_self_filter (p : α → Bool) (l : List α) :
    List.filter p (List.filter p l) = List.filter p l := by
  rw [List.filter_filter]
  exact List.filter_congr (fun a _ => by cases p a <;> rfl)

/-! ### C3: road normalizer on missing discriminator columns -/

/-- C3.  When `indic_env` or `airpol` is absent, `clean_road_emissions`
returns the empty frame with the expected normalized columns (and, being a
total function, raises no error). -/
theorem c3_road_missing_discriminators (t : Frame)
    (h : "indic_env" ∉ t.cols ∨ "airpol" ∉ t.cols) :
    clean_road_emissions t = roadEmptyFrame := by
  rw [clean_road_emissions, if_pos h]

/-- Witness for C3 at a concrete frame lacking both discriminators. -/
theorem c3_witness :
    ("indic_env" ∉ (Frame.mk ["geo"] []).cols ∨ "airpol" ∉ (Frame.mk ["geo"] []).cols) ∧
      clean_road_emissions (Frame.mk ["geo"] []) = roadEmptyFrame :=
  ⟨by decide, c3_road_missing_discriminators _ (by decide)⟩

/-! ### C4: empty-input behaviour of the pipeline -/

/-- C4.  Each normalizer maps the wholly empty input to an empty frame
without error, but integrating those outputs fails: the first merge of
`integrate_datasets` asks for the key columns `country`/`year`, which the
empty cleaned frames do not have, so pandas raises `KeyError`
(modelled by `none`).  This contradicts the claimed empty-in/empty-out
behaviour of the integration stage. -/
theorem c4_empty_input_eval :
    clean_buses_trains emptyFrame = emptyFrame ∧
      clean_greenhouse_gas emptyFrame = emptyFrame ∧
      clean_road_emissions emptyFrame = roadEmptyFrame ∧
      integrate_datasets (clean_buses_trains emptyFrame)
        (clean_greenhouse_gas emptyFrame) (clean_road_emissions emptyFrame) = none := by
  refine ⟨by decide, by decide, by decide, by decide⟩

/-! ### C9: idempotence of the categorical filters -/

/-- C9.  Each normalizer's categorical filter stage is idempotent:
re-applying it to rows that already passed it changes nothing. -/
theorem c9_filter_idempotent (t : Frame) :
    btFilter (btFilter t) = btFilter t ∧
      ghgFilter (ghgFilter t) = ghgFilter t ∧
      roadFilter (roadFilter t) = roadFilter t := by
  refine ⟨?_, ?_, ?_⟩
  · by_cases h : "vehicle" ∈ t.cols
    · simp only [btFilter, Frame.cols_filterRows, if_pos h]
      simp [Frame.filterRows, List.filter_self_filter]
    · simp only [btFilter, if_neg h]
  · by_cases hu : "unit" ∈ t.cols <;> by_cases hs : "src_crf" ∈ t.cols
    · simp only [ghgFilter, Frame.cols_filterRows, if_pos hu, if_pos hs]
      simp only [Frame.filterRows, List.filter_filter, Frame.mk.injEq, true_and]
      exact List.filter_congr (fun a _ => by
        cases cellEqStr (Row.get a "unit") "T_HAB" <;>
          cases cellEqStr (Row.get a "src_crf") "TOTXMEMO" <;> rfl)
    · simp only [ghgFilter, Frame.cols_filterRows, if_pos hu, if_neg hs]
      simp [Frame.filterRows, List.filter_self_filter]
    · simp only [ghgFilter, Frame.cols_filterRows, if_neg hu, if_pos hs]
      simp [Frame.filterRows, List.filter_self_filter]
    · simp only [ghgFilter, Frame.cols_filterRows, if_neg hu, if_neg hs]
  · by_cases hu : "unit" ∈ t.cols
    · simp only [roadFilter, Frame.cols_filterRows, if_pos hu]
      simp only [Frame.filterRows, List.filter_filter, Frame.mk.injEq, true_and]
      exact List.filter_congr (fun a _ => by
        cases cellEqStr (Row.get a "indic_env") "AEMIS_RES" <;>
          cases cellEqStr (Row.get a "airpol") "CO2" <;>
          cases cellEqStr (Row.get a "unit") "KG_HAB" <;> rfl)
    · simp only [roadFilter, Frame.cols_filterRows, if_neg hu]
      simp [Frame.filterRows, List.filter_self_filter]

/-! ### C8: the categorical filter predicates -/

/-- C8.  `clean_buses_trains`'s filter stage keeps exactly the rows with
`vehicle == "TRN_BUS_TOT_AVD"` when the `vehicle` column is present and is
the identity when it is absent; `clean_greenhouse_gas`'s filter stage keeps
exactly the rows satisfying `unit == "T_HAB"` and `src_crf == "TOTXMEMO"`,
each predicate being applied only when its column exists. -/
theorem c8_filter_predicates :
    (∀ t : Frame, "vehicle" ∈ t.cols →
      (btFilter t).rows =
        t.rows.filter (fun r => cellEqStr (Row.get r "vehicle") "TRN_BUS_TOT_AVD")) ∧
    (∀ t : Frame, "vehicle" ∉ t.cols → btFilter t = t) ∧
    (∀ t : Frame, "unit" ∈ t.cols → "src_crf" ∈ t.cols →
      (ghgFilter t).rows =
        t.rows.filter (fun r =>
          cellEqStr (Row.get r "unit") "T_HAB" &&
            cellEqStr (Row.get r "src_crf") "TOTXMEMO")) ∧
    (∀ t : Frame, "unit" ∈ t.cols → "src_crf" ∉ t.cols →
      (ghgFilter t).rows = t.rows.filter (fun r => cellEqStr (Row.get r "unit") "T_HAB")) ∧
    (∀ t : Frame, "unit" ∉ t.cols → "src_crf" ∈ t.cols →
      (ghgFilter t).rows =
        t.rows.filter (fun r => cellEqStr (Row.get r "src_crf") "TOTXMEMO")) ∧
    (∀ t : Frame, "unit" ∉ t.cols → "src_crf" ∉ t.cols → ghgFilter t = t) := by
  refine ⟨?_, ?_, ?_, ?_, ?_, ?_⟩
  · intro t h
    simp [btFilter, if_pos h, Frame.filterRows]
  · intro t h
    simp [btFilter, if_neg h]
  · intro t hu hs
    simp only [ghgFilter, Frame.cols_filterRows, if_pos hu, if_pos hs,
      Frame.rows_filterRows, List.filter_filter]
    exact List.filter_congr (fun a _ => by
      cases cellEqStr (Row.get a "unit") "T_HAB" <;>
        cases cellEqStr (Row.get a "src_crf") "TOTXMEMO" <;> rfl)
  · intro t hu hs
    simp only [ghgFilter, Frame.cols_filterRows, if_pos hu, if_neg hs, Frame.rows_filterRows]
  · intro t hu hs
    simp only [ghgFilter, Frame.cols_filterRows, if_neg hu, if_pos hs, Frame.rows_filterRows]
  · intro t hu hs
    simp only [ghgFilter, Frame.cols_filterRows, if_neg hu, if_neg hs]

/-- Witness for C8: instances of all six cases at concrete frames. -/
theorem c8_witness :
    ((btFilter (Frame.mk ["vehicle"] [[("vehicle", Cell.vstr "X")]])).rows =
      [[("vehicle", Cell.vstr "X")]].filter
        (fun r => cellEqStr (Row.get r "vehicle") "TRN_BUS_TOT_AVD")) ∧
    (btFilter (Frame.mk ["geo"] []) = Frame.mk ["geo"] []) ∧
    ((ghgFilter (Frame.mk ["unit", "src_crf"] [])).rows =
      ([] : List Row).filter (fun r =>
        cellEqStr (Row.get r "unit") "T_HAB" &&
          cellEqStr (Row.get r "src_crf") "TOTXMEMO")) ∧
    ((ghgFilter (Frame.mk ["unit"] [])).rows =
      ([] : List Row).filter (fun r => cellEqStr (Row.get r "unit") "T_HAB")) ∧
    ((ghgFilter (Frame.mk ["src_crf"] [])).rows =
      ([] : List Row).filter (fun r => cellEqStr (Row.get r "src_crf") "TOTXMEMO")) ∧
    (ghgFilter (Frame.mk ["geo"] []) = Frame.mk ["geo"] []) :=
  ⟨c8_filter_predicates.1 _ (by decide),
   c8_filter_predicates.2.1 _ (by decide),
   c8_filter_predicates.2.2.1 _ (by decide) (by decide),
   c8_filter_predicates.2.2.2.1 _ (by decide) (by decide),
   c8_filter_predicates.2.2.2.2.1 _ (by decide) (by decide),
   c8_filter_predicates.2.2.2.2.2 _ (by decide) (by decide)⟩

/-! ### C10: road filter ignores `unit` when the column is absent -/

/-- C10.  With `indic_env` and `airpol` present but no `unit` column, the
road filter stage keeps exactly the rows passing the two discriminator
predicates — the `unit == "KG_HAB"` predicate is skipped, the schema is
kept, and `clean_road_emissions` proceeds down its normal (non-empty,
non-raising) path on the filtered rows. -/
theorem c10_road_no_unit_column (t : Frame)
    (hi : "indic_env" ∈ t.cols) (ha : "airpol" ∈ t.cols) (hu : "unit" ∉ t.cols) :
    (roadFilter t).rows =
        t.rows.filter (fun r =>
          cellEqStr (Row.get r "indic_env") "AEMIS_RES" &&
            cellEqStr (Row.get r "airpol") "CO2") ∧
      (roadFilter t).cols = t.cols ∧
      clean_road_emissions t =
        cleanTail ["geo", "TIME_PERIOD", "OBS_VALUE", "OBS_FLAG", "unit",
                   "indic_env", "airpol"] "road_co2_per_capita_g"
          (t.filterRows (fun r =>
            cellEqStr (Row.get r "indic_env") "AEMIS_RES" &&
              cellEqStr (Row.get r "airpol") "CO2")) := by
  have hfilt : roadFilter t = t.filterRows (fun r =>
      cellEqStr (Row.get r "indic_env") "AEMIS_RES" &&
        cellEqStr (Row.get r "airpol") "CO2") := by
    simp only [roadFilter, Frame.cols_filterRows, if_neg hu]
  refine ⟨?_, ?_, ?_⟩
  · rw [hfilt]
    rfl
  · rw [hfilt]
    rfl
  · rw [clean_road_emissions, if_neg (by push_neg; exact ⟨hi, ha⟩), hfilt]

/-- Witness for C10 at a concrete frame with the two discriminators and no
`unit` column: a row with a foreign unit value is kept. -/
theorem c10_witness :
    (roadFilter (Frame.mk ["indic_env", "airpol", "OBS_VALUE"]
        [[("indic_env", Cell.vstr "AEMIS_RES"), ("airpol", Cell.vstr "CO2"),
          ("OBS_VALUE", Cell.vnum 7)]])).rows =
      [[("indic_env", Cell.vstr "AEMIS_RES"), ("airpol", Cell.vstr "CO2"),
        ("OBS_VALUE", Cell.vnum 7)]].filter
        (fun r =>
          cellEqStr (Row.get r "indic_env") "AEMIS_RES" &&
            cellEqStr (Row.get r "airpol") "CO2") :=
  (c10_road_no_unit_column _ (by decide) (by decide) (by decide)).1

/-! ### C1: non-nullity of indicator values -/

/-- Counterexample to C1 as stated: a raw buses/trains row whose
`OBS_VALUE` does not parse as a float (`"abc"`) is NOT dropped by
`clean_buses_trains`; it leaves the normalizer with a missing
(`NaN`) `share_buses_trains` value.  (The sources coerce the indicator with
`errors="coerce"` but only `dropna` on `year`.) -/
theorem c1_counterexample :
    ∃ r ∈ (clean_buses_trains (Frame.mk ["geo", "TIME_PERIOD", "OBS_VALUE", "vehicle"]
      [[("geo", Cell.vstr "DE"), ("TIME_PERIOD", Cell.vstr "2019"),
        ("OBS_VALUE", Cell.vstr "abc"),
        ("vehicle", Cell.vstr "TRN_BUS_TOT_AVD")]])).rows,
      Row.get r "share_buses_trains" = Cell.vna := by
  decide

/-- C1 as amended: rows whose indicator fails float parsing leave the
Normalizer with a missing value; they are only removed by the Integrator's
`dropna` over the indicator columns, so every INTEGRATED row has a
non-missing value in each indicator column present in the joined schema. -/
theorem c1_integrated_nonnull (bt ghg road out : Frame)
    (h : integrate_datasets bt ghg road = some out) :
    ∀ r ∈ out.rows, ∀ c ∈ requiredIndicators, c ∈ out.cols → Row.get r c ≠ Cell.vna := by
  unfold integrate_datasets at h
  split at h
  · exact Option.noConfusion h
  · split at h
    · exact Option.noConfusion h
    · rename_i m1 hm1 m2 hm2
      simp only [Option.some.injEq] at h
      intro r hr c hc hcc
      by_cases hemp : (requiredIndicators.filter (fun c => m2.cols.contains c)).isEmpty
      · exfalso
        rw [if_pos hemp] at h
        subst h
        have : c ∈ requiredIndicators.filter (fun c => m2.cols.contains c) :=
          List.mem_filter.mpr ⟨hc, List.elem_iff.mpr hcc⟩
        rw [List.isEmpty_iff] at hemp
        rw [hemp] at this
        cases this
      · rw [if_neg hemp] at h
        subst h
        have hcf : c ∈ requiredIndicators.filter (fun c => m2.cols.contains c) :=
          List.mem_filter.mpr ⟨hc, List.elem_iff.mpr hcc⟩
        have := List.mem_filter.mp hr
        have hall := List.all_eq_true.mp this.2 c hcf
        simpa using hall

/-- Witness for the amended C1 on concrete frames: the integration succeeds
and every output indicator cell is non-missing. -/
theorem c1_witness :
    integrate_datasets c1BT c1GHG c1Road = some c1Out ∧
      ∀ r ∈ c1Out.rows, ∀ c ∈ requiredIndicators, c ∈ c1Out.cols →
        Row.get r c ≠ Cell.vna :=
  ⟨by decide, c1_integrated_nonnull c1BT c1GHG c1Road c1Out (by decide)⟩

/-! ### C7: degenerate trend inputs -/

/-- C7.  The Trend Estimator (i) only depends on the finite (x, y) pairs of
the summary (frames with the same columns condition and the same finite
pairs get the same trend), (ii) reports no trend, and no error, when fewer
than 2 finite pairs remain, and (iii) reports R² = 0 (a value, never `NaN`)
when the total sum of squares of y is exactly zero. -/
theorem c7_trend_degenerate :
    (∀ t : Frame, (finitePairs t).length < 2 → fitTrend t = none) ∧
    (∀ t : Frame,
      ("share_buses_trains" ∈ t.cols ∧ "road_co2_per_capita_kg" ∈ t.cols) →
      2 ≤ (finitePairs t).length → ssTot (finitePairs t) = 0 →
      ∃ res, fitTrend t = some res ∧ res.r2 = 0) ∧
    (∀ t1 t2 : Frame,
      (("share_buses_trains" ∈ t1.cols ∧ "road_co2_per_capita_kg" ∈ t1.cols) ↔
        ("share_buses_trains" ∈ t2.cols ∧ "road_co2_per_capita_kg" ∈ t2.cols)) →
      finitePairs t1 = finitePairs t2 → fitTrend t1 = fitTrend t2) := by
  refine ⟨?_, ?_, ?_⟩
  · intro t hlen
    by_cases hc : "share_buses_trains" ∈ t.cols ∧ "road_co2_per_capita_kg" ∈ t.cols
    · rw [fitTrend, if_pos hc, if_pos hlen]
    · rw [fitTrend, if_neg hc]
  · intro t hc hlen hst
    rw [fitTrend, if_pos hc, if_neg (Nat.not_lt.mpr hlen)]
    refine ⟨_, rfl, ?_⟩
    show (if ssTot (finitePairs t) ≠ 0 then _ else 0) = 0
    rw [if_neg (by simpa using hst)]
  · intro t1 t2 hc hp
    by_cases h1 : "share_buses_trains" ∈ t1.cols ∧ "road_co2_per_capita_kg" ∈ t1.cols
    · rw [fitTrend, fitTrend, if_pos h1, if_pos (hc.mp h1), hp]
    · rw [fitTrend, fitTrend, if_neg h1, if_neg (fun h => h1 (hc.mpr h))]

/-- Witness for C7: each part applied at concrete summary frames (one
finite pair only; two pairs with identical y; the same pairs with and
without an extra non-finite row). -/
theorem c7_witness :
    fitTrend (Frame.mk ["share_buses_trains", "road_co2_per_capita_kg"]
      [[("share_buses_trains", Cell.vnum 3), ("road_co2_per_capita_kg", Cell.vnum 5)],
       [("share_buses_trains", Cell.vna), ("road_co2_per_capita_kg", Cell.vnum 9)]]) =
        none ∧
    (∃ res,
      fitTrend (Frame.mk ["share_buses_trains", "road_co2_per_capita_kg"]
        [[("share_buses_trains", Cell.vnum 1), ("road_co2_per_capita_kg", Cell.vnum 5)],
         [("share_buses_trains", Cell.vnum 2), ("road_co2_per_capita_kg", Cell.vnum 5)]]) =
          some res ∧ res.r2 = 0) ∧
    fitTrend (Frame.mk ["share_buses_trains", "road_co2_per_capita_kg"]
      [[("share_buses_trains", Cell.vnum 1), ("road_co2_per_capita_kg", Cell.vnum 5)],
       [("share_buses_trains", Cell.vnum 2), ("road_co2_per_capita_kg", Cell.vnum 7)],
       [("share_buses_trains", Cell.vnum 4), ("road_co2_per_capita_kg", Cell.vna)]]) =
      fitTrend (Frame.mk ["share_buses_trains", "road_co2_per_capita_kg"]
        [[("share_buses_trains", Cell.vnum 1), ("road_co2_per_capita_kg", Cell.vnum 5)],
         [("share_buses_trains", Cell.vnum 2), ("road_co2_per_capita_kg", Cell.vnum 7)]]) := by
  refine ⟨c7_trend_degenerate.1 _ (by decide), ?_, c7_trend_degenerate.2.2 _ _ (by decide) (by decide)⟩
  refine c7_trend_degenerate.2.1 _ (by decide) (by decide) ?_
  have hp : finitePairs (Frame.mk ["share_buses_trains", "road_co2_per_capita_kg"]
      [[("share_buses_trains", Cell.vnum 1), ("road_co2_per_capita_kg", Cell.vnum 5)],
       [("share_buses_trains", Cell.vnum 2), ("road_co2_per_capita_kg", Cell.vnum 5)]]) =
      [(1, 5), (2, 5)] := by decide
  rw [hp, ssTot]
  norm_num

/-! ### Lookup toolkit -/

theorem Row.find?_isSome_iff (r : Row) (k : String) :
    (r.find? (fun p => p.1 == k)).isSome ↔ k ∈ r.map Prod.fst := by
  rw [List.find?_isSome]
  constructor
  · rintro ⟨p, hp, he⟩
    exact List.mem_map.mpr ⟨p, hp, by simpa using (beq_iff_eq.mp he)⟩
  · intro hmem
    obtain ⟨p, hp, he⟩ := List.mem_map.mp hmem
    exact ⟨p, hp, by simp [he]⟩

theorem Row.get_eq_vna_of_not_mem (r : Row) (k : String) (h : k ∉ r.map Prod.fst) :
    Row.get r k = Cell.vna := by
  rw [Row.get]
  cases hf : r.find? (fun p => p.1 == k) with
  | none => rfl
  | some p =>
    exact absurd ((Row.find?_isSome_iff r k).mp (by simp [hf])) h

theorem Row.get_append (a b : Row) (k : String) :
    Row.get (a ++ b) k =
      if (a.find? (fun p => p.1 == k)).isSome then Row.get a k else Row.get b k := by
  simp only [Row.get, List.find?_append]
  cases a.find? (fun p => p.1 == k) <;> simp [Option.or]

/-- Looking up `k` commutes with an entry-key transformation `f`, given a
preimage key `k'` such that, on the row's entries, `f` maps a key to `k`
exactly when that key is `k'`. -/
theorem Row.get_map_key_pre (f : String → String) (r : Row) (k k' : String)
    (hf : ∀ p ∈ r, (f p.1 = k ↔ p.1 = k')) :
    Row.get (r.map (fun p => (f p.1, p.2))) k = Row.get r k' := by
  induction r with
  | nil => rfl
  | cons a r ih =>
    simp only [List.map_cons]
    rw [Row.get_cons, Row.get_cons]
    by_cases h : a.1 = k'
    · rw [if_pos ((hf a (by simp)).mpr h), if_pos h]
    · rw [if_neg (fun hh => h ((hf a (by simp)).mp hh)), if_neg h]
      exact ih (fun p hp => hf p (List.mem_cons_of_mem a hp))

theorem Row.get_select (r : Row) (cs : List String) (k : String) :
    Row.get (cs.map (fun c => (c, Row.get r c))) k =
      if k ∈ cs then Row.get r k else Cell.vna := by
  induction cs with
  | nil => simp [Row.get]
  | cons c cs ih =>
    simp only [List.map_cons]
    rw [Row.get_cons]
    by_cases h : c = k
    · subst h
      simp
    · rw [if_neg h, ih]
      by_cases hm : k ∈ cs
      · rw [if_pos hm, if_pos (List.mem_cons_of_mem c hm)]
      · rw [if_neg hm, if_neg (by
          intro hmem
          rcases List.mem_cons.mp hmem with h1 | h2
          · exact h h1.symm
          · exact hm h2)]

theorem Row.mapCol_eq_self (r : Row) (c : String) (f : Cell → Cell)
    (h : ∀ p ∈ r, p.1 = c → f p.2 = p.2) : Row.mapCol r c f = r := by
  induction r with
  | nil => rfl
  | cons a r ih =>
    simp only [Row.mapCol, List.map_cons]
    by_cases hac : a.1 = c
    · rw [if_pos hac, h a (by simp) hac]
      exact congrArg (List.cons a) (ih (fun p hp hpc => h p (List.mem_cons_of_mem a hp) hpc))
    · rw [if_neg hac]
      exact congrArg (List.cons a) (ih (fun p hp hpc => h p (List.mem_cons_of_mem a hp) hpc))

theorem Row.get_mapCol_ne (r : Row) (c : String) (f : Cell → Cell) (k : String)
    (h : c ≠ k) : Row.get (Row.mapCol r c f) k = Row.get r k := by
  induction r with
  | nil => rfl
  | cons a r ih =>
    simp only [Row.mapCol, List.map_cons] at ih ⊢
    by_cases hac : a.1 = c
    · have hak : ¬ a.1 = k := fun hh => h (hac.symm.trans hh)
      rw [if_pos hac, Row.get_cons, Row.get_cons]
      simp only [hak, if_false]
      exact ih
    · rw [if_neg hac, Row.get_cons, Row.get_cons]
      by_cases hak : a.1 = k
      · simp only [hak, if_true]
      · simp only [hak, if_false]
        exact ih

theorem Row.get_mapCol_self (r : Row) (c : String) (f : Cell → Cell) :
    Row.get (Row.mapCol r c f) c =
      if (r.find? (fun p => p.1 == c)).isSome then f (Row.get r c) else Cell.vna := by
  induction r with
  | nil => simp [Row.mapCol, Row.get]
  | cons a r ih =>
    simp only [Row.mapCol, List.map_cons] at ih ⊢
    by_cases hac : a.1 = c
    · rw [if_pos hac, Row.get_cons]
      simp [Row.get_cons, List.find?_cons, hac]
    · rw [if_neg hac, Row.get_cons]
      simp only [hac, if_false]
      rw [ih]
      have hb : (a.1 == c) = false := by simp [hac]
      have hg : Row.get (a :: r) c = Row.get r c := by rw [Row.get_cons, if_neg hac]
      simp only [List.find?_cons, hb, hg]

theorem List.find?_filter_of_imp (l : List α) (p q : α → Bool)
    (h : ∀ a, p a = true → q a = true) : (l.filter q).find? p = l.find? p := by
  induction l with
  | nil => rfl
  | cons a l ih =>
    by_cases hq : q a
    · rw [List.filter_cons_of_pos hq]
      rw [List.find?_cons, List.find?_cons]
      cases hp : p a <;> simp [ih]
    · rw [List.filter_cons_of_neg hq, List.find?_cons]
      cases hp : p a
      · simp [ih]
      · exact absurd (h a hp) (by simpa using hq)

/-! ### Merge machinery -/

theorem bool_eq_false_of_not_true {b : Bool} (h : ¬ b = true) : b = false := by
  cases b
  · rfl
  · exact absurd rfl h

theorem List.contains_eq_true_iff (l : List String) (a : String) :
    l.contains a = true ↔ a ∈ l := List.elem_iff

theorem List.contains_eq_false_iff (l : List String) (a : String) :
    l.contains a = false ↔ a ∉ l := by
  rw [← Bool.not_eq_true, not_iff_not]
  exact List.elem_iff

theorem keyNoClash_of_drop_ne (s t : String)
    (h : t.data.drop (t.data.length - s.data.length) ≠ s.data) : keyNoClash s t := by
  intro c hc
  apply h
  rw [← hc, String.data_append, List.length_append, Nat.add_sub_cancel, List.drop_left]

theorem suffixCol_eq_append (ov : List String) (s c : String)
    (hc : ov.contains c = true) : suffixCol ov s c = c ++ s := by
  unfold suffixCol
  rw [if_pos hc]

theorem suffixCol_eq_self (ov : List String) (s c : String)
    (hc : ov.contains c = false) : suffixCol ov s c = c := by
  unfold suffixCol
  rw [if_neg (by rw [hc]; exact Bool.false_ne_true)]

/-- Case split for `suffixCol ov s c = k` under a no-clash hypothesis. -/
theorem eq_of_suffixCol_eq (ov : List String) (s c k : String)
    (hs : keyNoClash s k) (h : suffixCol ov s c = k) : c = k := by
  by_cases hc : ov.contains c = true
  · rw [suffixCol_eq_append ov s c hc] at h
    exact absurd h (hs c)
  · rwa [suffixCol_eq_self ov s c (bool_eq_false_of_not_true hc)] at h

theorem overlapCols_contains_false_of_key (l r : Frame) (keys : List String) (k : String)
    (hk : k ∈ keys) : (overlapCols l r keys).contains k = false := by
  rw [List.contains_eq_false_iff]
  intro hm
  have h2 := (List.mem_filter.mp hm).2
  simp only [Bool.and_eq_true, Bool.not_eq_eq_eq_not, Bool.not_true] at h2
  exact (List.contains_eq_false_iff _ _).mp h2.2 hk

theorem overlapCols_contains_false_of_not_right (l r : Frame) (keys : List String)
    (k : String) (hk : k ∉ r.cols) : (overlapCols l r keys).contains k = false := by
  rw [List.contains_eq_false_iff]
  intro hm
  have h2 := (List.mem_filter.mp hm).2
  simp only [Bool.and_eq_true] at h2
  exact hk ((List.contains_eq_true_iff _ _).mp h2.1)

theorem overlapCols_contains_false_of_not_left (l r : Frame) (keys : List String)
    (k : String) (hk : k ∉ l.cols) : (overlapCols l r keys).contains k = false := by
  rw [List.contains_eq_false_iff]
  intro hm
  exact hk (List.mem_filter.mp hm).1

/-- Looking a column up in a combined row falls through to the left row
when no right-hand entry can produce that column name. -/
theorem get_combineRow_left (lr rr : Row) (ov keys : List String) (sl sr k : String)
    (hov : ov.contains k = false) (hsl : keyNoClash sl k) (hsr : keyNoClash sr k)
    (hB : ∀ p ∈ rr, p.1 ∉ keys → p.1 ≠ k) :
    Row.get (combineRow lr rr ov keys sl sr) k = Row.get lr k := by
  have hfk : suffixCol ov sl k = k := suffixCol_eq_self ov sl k hov
  have hA : ∀ p ∈ lr, (suffixCol ov sl p.1 = k ↔ p.1 = k) := by
    intro p _
    exact ⟨eq_of_suffixCol_eq ov sl p.1 k hsl, fun h1 => h1 ▸ hfk⟩
  have hAeq : Row.get (lr.map (fun p => (suffixCol ov sl p.1, p.2))) k = Row.get lr k :=
    Row.get_map_key_pre _ _ _ _ hA
  rw [combineRow, Row.get_append]
  by_cases hs : ((lr.map (fun p => (suffixCol ov sl p.1, p.2))).find?
      (fun p => p.1 == k)).isSome
  · rw [if_pos hs]
    exact hAeq
  · rw [if_neg hs]
    have hnone := Option.not_isSome_iff_eq_none.mp hs
    have hAvna : Row.get (lr.map (fun p => (suffixCol ov sl p.1, p.2))) k = Cell.vna := by
      rw [Row.get, hnone]
    rw [← hAeq, hAvna]
    apply Row.get_eq_vna_of_not_mem
    intro hmem
    rw [List.map_map] at hmem
    obtain ⟨p, hp, hpk⟩ := List.mem_map.mp hmem
    have hpk2 : suffixCol ov sr p.1 = k := hpk
    obtain ⟨hprr, hpkeys⟩ := List.mem_filter.mp hp
    simp only [Bool.not_eq_eq_eq_not, Bool.not_true] at hpkeys
    exact hB p hprr ((List.contains_eq_false_iff _ _).mp hpkeys)
      (eq_of_suffixCol_eq ov sr p.1 k hsr hpk2)

/-- Looking a key column up in a combined row gives the left row's value. -/
theorem get_combineRow_key (lr rr : Row) (ov keys : List String) (sl sr k : String)
    (hk : k ∈ keys) (hsl : keyNoClash sl k) (hsr : keyNoClash sr k)
    (hov : ov.contains k = false) :
    Row.get (combineRow lr rr ov keys sl sr) k = Row.get lr k :=
  get_combineRow_left lr rr ov keys sl sr k hov hsl hsr
    (fun _ _ hnk heq => hnk (heq ▸ hk))

/-- Looking a non-key column up in a combined row falls through to the
right row when the left row has no entry of that name. -/
theorem get_combineRow_right (lr rr : Row) (ov keys : List String) (sl sr k : String)
    (hlr : ∀ p ∈ lr, p.1 ≠ k) (hkk : k ∉ keys)
    (hov : ov.contains k = false) (hsl : keyNoClash sl k) (hsr : keyNoClash sr k) :
    Row.get (combineRow lr rr ov keys sl sr) k = Row.get rr k := by
  have hfk : suffixCol ov sr k = k := suffixCol_eq_self ov sr k hov
  rw [combineRow, Row.get_append, if_neg ?hA]
  case hA =>
    intro hs
    obtain ⟨p, hp, hpb⟩ := List.find?_isSome.mp hs
    obtain ⟨q, hq, hqe⟩ := List.mem_map.mp hp
    have hpk : p.1 = k := beq_iff_eq.mp hpb
    rw [← hqe] at hpk
    have hq1 : suffixCol ov sl q.1 = k := hpk
    exact hlr q hq (eq_of_suffixCol_eq ov sl q.1 k hsl hq1)
  have hf : ∀ p ∈ rr.filter (fun p => !keys.contains p.1),
      (suffixCol ov sr p.1 = k ↔ p.1 = k) := by
    intro p _
    exact ⟨eq_of_suffixCol_eq ov sr p.1 k hsr, fun h1 => h1 ▸ hfk⟩
  rw [Row.get_map_key_pre _ _ _ _ hf]
  rw [Row.get, Row.get,
    List.find?_filter_of_imp rr (fun p => p.1 == k) (fun p => !keys.contains p.1)
      (fun p hp => by
        have hp2 : p.1 = k := beq_iff_eq.mp hp
        show (!keys.contains p.1) = true
        rw [hp2, (List.contains_eq_false_iff keys k).mpr hkk]
        rfl)]

theorem Frame.merge_eq_some (l r : Frame) (keys : List String) (sl sr : String)
    (h1 : ∀ k ∈ keys, k ∈ l.cols) (h2 : ∀ k ∈ keys, k ∈ r.cols) :
    Frame.merge l r keys sl sr =
      some { cols := mergeCols l r keys sl sr,
             rows := l.rows.flatMap (fun lr =>
               (r.rows.filter (fun rr => keysMatch keys lr rr)).map
                 (fun rr => combineRow lr rr (overlapCols l r keys) keys sl sr)) } := by
  have hcond : (keys.all (fun k => l.cols.contains k) &&
      keys.all (fun k => r.cols.contains k)) = true := by
    rw [Bool.and_eq_true, List.all_eq_true, List.all_eq_true]
    constructor
    · intro k hk
      show l.cols.contains k = true
      exact (List.contains_eq_true_iff _ _).mpr (h1 k hk)
    · intro k hk
      show r.cols.contains k = true
      exact (List.contains_eq_true_iff _ _).mpr (h2 k hk)
  unfold Frame.merge
  rw [if_pos hcond]

theorem mem_merge_rows_iff (l r : Frame) (keys : List String) (sl sr : String) (m : Frame)
    (hm : Frame.merge l r keys sl sr = some m) (x : Row) :
    x ∈ m.rows ↔ ∃ lr ∈ l.rows, ∃ rr ∈ r.rows, keysMatch keys lr rr = true ∧
      x = combineRow lr rr (overlapCols l r keys) keys sl sr := by
  unfold Frame.merge at hm
  split at hm
  · simp only [Option.some.injEq] at hm
    subst hm
    constructor
    · intro hx
      obtain ⟨lr, hlr, hx2⟩ := List.mem_flatMap.mp hx
      obtain ⟨rr, hrr, hxe⟩ := List.mem_map.mp hx2
      obtain ⟨hrr2, hkm⟩ := List.mem_filter.mp hrr
      exact ⟨lr, hlr, rr, hrr2, hkm, hxe.symm⟩
    · rintro ⟨lr, hlr, rr, hrr, hkm, hxe⟩
      exact List.mem_flatMap.mpr
        ⟨lr, hlr, List.mem_map.mpr ⟨rr, List.mem_filter.mpr ⟨hrr, hkm⟩, hxe.symm⟩⟩
  · exact Option.noConfusion hm

theorem merge_cols_eq (l r : Frame) (keys : List String) (sl sr : String) (m : Frame)
    (hm : Frame.merge l r keys sl sr = some m) :
    m.cols = mergeCols l r keys sl sr := by
  unfold Frame.merge at hm
  split at hm
  · simp only [Option.some.injEq] at hm
    rw [← hm]
  · exact Option.noConfusion hm

theorem map_fst_filter_pred (rr : Row) (q : String → Bool) :
    (rr.filter (fun p => q p.1)).map Prod.fst = (rr.map Prod.fst).filter q := by
  induction rr with
  | nil => rfl
  | cons a rs ih =>
    cases h : q a.1 with
    | true =>
      simp only [List.filter_cons, List.map_cons, h, if_true]
      rw [ih]
    | false =>
      simp only [List.filter_cons, List.map_cons, h, if_false]
      exact ih

theorem combineRow_keys (lr rr : Row) (l r : Frame) (keys : List String) (sl sr : String)
    (hl : lr.map Prod.fst = l.cols) (hr : rr.map Prod.fst = r.cols) :
    (combineRow lr rr (overlapCols l r keys) keys sl sr).map Prod.fst =
      mergeCols l r keys sl sr := by
  unfold combineRow mergeCols
  rw [List.map_append]
  congr 1
  · rw [List.map_map, ← hl, List.map_map]
    rfl
  · rw [List.map_map, ← hr, ← map_fst_filter_pred rr (fun c => !keys.contains c),
      List.map_map]
    rfl

theorem Frame.merge_wf (l r : Frame) (keys : List String) (sl sr : String) (m : Frame)
    (hm : Frame.merge l r keys sl sr = some m) (hl : l.wf) (hr : r.wf) : m.wf := by
  intro x hx
  obtain ⟨lr, hlr, rr, hrr, _, hxe⟩ := (mem_merge_rows_iff l r keys sl sr m hm x).mp hx
  subst hxe
  rw [merge_cols_eq l r keys sl sr m hm]
  exact combineRow_keys lr rr l r keys sl sr (hl lr hlr) (hr rr hrr)

theorem mem_mergeCols_left (l r : Frame) (keys : List String) (sl sr k : String)
    (h : k ∈ l.cols) (hov : (overlapCols l r keys).contains k = false) :
    k ∈ mergeCols l r keys sl sr := by
  unfold mergeCols
  exact List.mem_append_left _
    (List.mem_map.mpr ⟨k, h, suffixCol_eq_self _ _ _ hov⟩)

theorem mem_mergeCols_right (l r : Frame) (keys : List String) (sl sr k : String)
    (h : k ∈ r.cols) (hkk : k ∉ keys)
    (hov : (overlapCols l r keys).contains k = false) :
    k ∈ mergeCols l r keys sl sr := by
  unfold mergeCols
  apply List.mem_append_right
  refine List.mem_map.mpr ⟨k, List.mem_filter.mpr ⟨h, ?_⟩, suffixCol_eq_self _ _ _ hov⟩
  rw [(List.contains_eq_false_iff keys k).mpr hkk]
  rfl

theorem not_mem_mergeCols (l r : Frame) (keys : List String) (sl sr k : String)
    (h1 : k ∉ l.cols) (h2 : k ∉ r.cols)
    (hsl : keyNoClash sl k) (hsr : keyNoClash sr k) :
    k ∉ mergeCols l r keys sl sr := by
  unfold mergeCols
  intro hm
  rcases List.mem_append.mp hm with hL | hR
  · obtain ⟨c, hc, hce⟩ := List.mem_map.mp hL
    exact h1 ((eq_of_suffixCol_eq _ _ _ _ hsl hce) ▸ hc)
  · obtain ⟨c, hc, hce⟩ := List.mem_map.mp hR
    exact h2 ((eq_of_suffixCol_eq _ _ _ _ hsr hce) ▸ (List.mem_filter.mp hc).1)

/-- None of the merge suffixes can turn any column name into one of the key
or indicator names. -/
theorem noClash_all :
    ∀ s ∈ ["_bt", "_ghg", "_x", "_y"],
      ∀ t ∈ ["country", "year", "share_buses_trains", "ghg_per_capita",
             "road_co2_per_capita_g"], keyNoClash s t := by
  intro s hs t ht
  apply keyNoClash_of_drop_ne
  fin_cases hs <;> fin_cases ht <;> decide

theorem keysMatch_country_year (lr rr : Row) :
    keysMatch ["country", "year"] lr rr = true ↔
      (Row.get lr "country" = Row.get rr "country" ∧
        Row.get lr "year" = Row.get rr "year") := by
  unfold keysMatch
  rw [List.all_eq_true]
  constructor
  · intro h
    exact ⟨of_decide_eq_true (h "country" (by simp)),
           of_decide_eq_true (h "year" (by simp))⟩
  · intro hp k hk
    simp only [List.mem_cons, List.not_mem_nil, or_false] at hk
    rcases hk with rfl | rfl
    · exact decide_eq_true hp.1
    · exact decide_eq_true hp.2

/-- Unfolding equation for `integrate_datasets` when both merges succeed. -/
theorem integrate_eq (bt ghg road M1 M2 : Frame)
    (hm1 : Frame.merge bt ghg ["country", "year"] "_bt" "_ghg" = some M1)
    (hm2 : Frame.merge M1 road ["country", "year"] "_x" "_y" = some M2) :
    integrate_datasets bt ghg road =
      some (if (requiredIndicators.filter (fun c => M2.cols.contains c)).isEmpty then M2
        else M2.dropnaSubset (requiredIndicators.filter (fun c => M2.cols.contains c))) := by
  unfold integrate_datasets
  split
  · rename_i heq
    rw [heq] at hm1
    exact Option.noConfusion hm1
  · rename_i m1 heq1
    rw [heq1] at hm1
    have h1 : m1 = M1 := Option.some.inj hm1
    subst h1
    split
    · rename_i heq
      rw [heq] at hm2
      exact Option.noConfusion hm2
    · rename_i m2 heq2
      rw [heq2] at hm2
      have h2 : m2 = M2 := Option.some.inj hm2
      subst h2
      rfl

/-- A (country, year) key appears in an inner merge on those keys exactly
when it appears in both operands. -/
theorem hasKey_merge_iff (l r : Frame) (sl sr : String) (m : Frame)
    (hm : Frame.merge l r ["country", "year"] sl sr = some m)
    (hslc : keyNoClash sl "country") (hsly : keyNoClash sl "year")
    (hsrc : keyNoClash sr "country") (hsry : keyNoClash sr "year")
    (c y : Cell) :
    m.hasKey c y ↔ (l.hasKey c y ∧ r.hasKey c y) := by
  have hovc : (overlapCols l r ["country", "year"]).contains "country" = false :=
    overlapCols_contains_false_of_key _ _ _ _ (by simp)
  have hovy : (overlapCols l r ["country", "year"]).contains "year" = false :=
    overlapCols_contains_false_of_key _ _ _ _ (by simp)
  constructor
  · rintro ⟨x, hx, hxc, hxy⟩
    obtain ⟨lr, hlr, rr, hrr, hkm, hxe⟩ := (mem_merge_rows_iff _ _ _ _ _ _ hm x).mp hx
    subst hxe
    rw [get_combineRow_key lr rr _ _ sl sr "country" (by simp) hslc hsrc hovc] at hxc
    rw [get_combineRow_key lr rr _ _ sl sr "year" (by simp) hsly hsry hovy] at hxy
    have hkm2 := (keysMatch_country_year lr rr).mp hkm
    exact ⟨⟨lr, hlr, hxc, hxy⟩,
           ⟨rr, hrr, hkm2.1 ▸ hxc, hkm2.2 ▸ hxy⟩⟩
  · rintro ⟨⟨lr, hlr, hlrc, hlry⟩, ⟨rr, hrr, hrrc, hrry⟩⟩
    have hkm : keysMatch ["country", "year"] lr rr = true :=
      (keysMatch_country_year lr rr).mpr
        ⟨hlrc.trans hrrc.symm, hlry.trans hrry.symm⟩
    refine ⟨combineRow lr rr (overlapCols l r ["country", "year"]) ["country", "year"] sl sr,
      (mem_merge_rows_iff _ _ _ _ _ _ hm _).mpr ⟨lr, hlr, rr, hrr, hkm, rfl⟩, ?_, ?_⟩
    · rw [get_combineRow_key lr rr _ _ sl sr "country" (by simp) hslc hsrc hovc]
      exact hlrc
    · rw [get_combineRow_key lr rr _ _ sl sr "year" (by simp) hsly hsry hovy]
      exact hlry

theorem wf_row_keys_ne (t : Frame) (hw : t.wf) (x : Row) (hx : x ∈ t.rows) (k : String)
    (hk : k ∉ t.cols) : ∀ p ∈ x, p.1 ≠ k := by
  intro p hp hpe
  apply hk
  rw [← hw x hx, ← hpe]
  exact List.mem_map_of_mem Prod.fst hp

/-- C2.  For normalized inputs (key and indicator columns present, each
indicator column private to its own table, indicator values non-missing —
the NormalizedRecord invariant), a (country, year) key appears in the
output of `integrate_datasets` exactly when it appears in all three
inputs. -/
theorem c2_integration_key_iff (bt ghg road : Frame)
    (hwb : bt.wf) (hwg : ghg.wf) (hwr : road.wf)
    (hbc : "country" ∈ bt.cols) (hby : "year" ∈ bt.cols)
    (hgc : "country" ∈ ghg.cols) (hgy : "year" ∈ ghg.cols)
    (hrc : "country" ∈ road.cols) (hry : "year" ∈ road.cols)
    (hsb : "share_buses_trains" ∈ bt.cols)
    (hsg : "share_buses_trains" ∉ ghg.cols) (hsr : "share_buses_trains" ∉ road.cols)
    (hgg : "ghg_per_capita" ∈ ghg.cols)
    (hgb : "ghg_per_capita" ∉ bt.cols) (hgr : "ghg_per_capita" ∉ road.cols)
    (hrdr : "road_co2_per_capita_g" ∈ road.cols)
    (hrb : "road_co2_per_capita_g" ∉ bt.cols) (hrg : "road_co2_per_capita_g" ∉ ghg.cols)
    (hnb : ∀ r ∈ bt.rows, Row.get r "share_buses_trains" ≠ Cell.vna)
    (hng : ∀ r ∈ ghg.rows, Row.get r "ghg_per_capita" ≠ Cell.vna)
    (hnr : ∀ r ∈ road.rows, Row.get r "road_co2_per_capita_g" ≠ Cell.vna) :
    ∃ out, integrate_datasets bt ghg road = some out ∧
      ∀ c y : Cell,
        (out.hasKey c y ↔ (bt.hasKey c y ∧ ghg.hasKey c y ∧ road.hasKey c y)) := by
  have ncBtC := noClash_all "_bt" (by simp) "country" (by simp)
  have ncBtY := noClash_all "_bt" (by simp) "year" (by simp)
  have ncBtS := noClash_all "_bt" (by simp) "share_buses_trains" (by simp)
  have ncBtG := noClash_all "_bt" (by simp) "ghg_per_capita" (by simp)
  have ncBtR := noClash_all "_bt" (by simp) "road_co2_per_capita_g" (by simp)
  have ncGhC := noClash_all "_ghg" (by simp) "country" (by simp)
  have ncGhY := noClash_all "_ghg" (by simp) "year" (by simp)
  have ncGhS := noClash_all "_ghg" (by simp) "share_buses_trains" (by simp)
  have ncGhG := noClash_all "_ghg" (by simp) "ghg_per_capita" (by simp)
  have ncGhR := noClash_all "_ghg" (by simp) "road_co2_per_capita_g" (by simp)
  have ncXC := noClash_all "_x" (by simp) "country" (by simp)
  have ncXY := noClash_all "_x" (by simp) "year" (by simp)
  have ncXS := noClash_all "_x" (by simp) "share_buses_trains" (by simp)
  have ncXG := noClash_all "_x" (by simp) "ghg_per_capita" (by simp)
  have ncXR := noClash_all "_x" (by simp) "road_co2_per_capita_g" (by simp)
  have ncYC := noClash_all "_y" (by simp) "country" (by simp)
  have ncYY := noClash_all "_y" (by simp) "year" (by simp)
  have ncYS := noClash_all "_y" (by simp) "share_buses_trains" (by simp)
  have ncYG := noClash_all "_y" (by simp) "ghg_per_capita" (by simp)
  have ncYR := noClash_all "_y" (by simp) "road_co2_per_capita_g" (by simp)
  obtain ⟨M1, hm1⟩ : ∃ M1, Frame.merge bt ghg ["country", "year"] "_bt" "_ghg" = some M1 :=
    ⟨_, Frame.merge_eq_some bt ghg _ _ _
      (fun k hk => by
        simp only [List.mem_cons, List.not_mem_nil, or_false] at hk
        rcases hk with rfl | rfl
        · exact hbc
        · exact hby)
      (fun k hk => by
        simp only [List.mem_cons, List.not_mem_nil, or_false] at hk
        rcases hk with rfl | rfl
        · exact hgc
        · exact hgy)⟩
  have hw1 : M1.wf := Frame.merge_wf _ _ _ _ _ _ hm1 hwb hwg
  have hcols1 : M1.cols = mergeCols bt ghg ["country", "year"] "_bt" "_ghg" :=
    merge_cols_eq _ _ _ _ _ _ hm1
  have h1c : "country" ∈ M1.cols := by
    rw [hcols1]
    exact mem_mergeCols_left _ _ _ _ _ _ hbc
      (overlapCols_contains_false_of_key _ _ _ _ (by simp))
  have h1y : "year" ∈ M1.cols := by
    rw [hcols1]
    exact mem_mergeCols_left _ _ _ _ _ _ hby
      (overlapCols_contains_false_of_key _ _ _ _ (by simp))
  have h1s : "share_buses_trains" ∈ M1.cols := by
    rw [hcols1]
    exact mem_mergeCols_left _ _ _ _ _ _ hsb
      (overlapCols_contains_false_of_not_right _ _ _ _ hsg)
  have h1g : "ghg_per_capita" ∈ M1.cols := by
    rw [hcols1]
    exact mem_mergeCols_right _ _ _ _ _ _ hgg (by decide)
      (overlapCols_contains_false_of_not_left _ _ _ _ hgb)
  have h1r : "road_co2_per_capita_g" ∉ M1.cols := by
    rw [hcols1]
    exact not_mem_mergeCols _ _ _ _ _ _ hrb hrg ncBtR ncGhR
  have h1vs : ∀ x ∈ M1.rows, Row.get x "share_buses_trains" ≠ Cell.vna := by
    intro x hx
    obtain ⟨lr, hlr, rr0, hrr0, _, hxe⟩ := (mem_merge_rows_iff _ _ _ _ _ _ hm1 x).mp hx
    subst hxe
    rw [get_combineRow_left lr rr0 _ _ _ _ "share_buses_trains"
      (overlapCols_contains_false_of_not_right _ _ _ _ hsg) ncBtS ncGhS
      (fun p hp _ => wf_row_keys_ne ghg hwg rr0 hrr0 _ hsg p hp)]
    exact hnb lr hlr
  have h1vg : ∀ x ∈ M1.rows, Row.get x "ghg_per_capita" ≠ Cell.vna := by
    intro x hx
    obtain ⟨lr, hlr, rr0, hrr0, _, hxe⟩ := (mem_merge_rows_iff _ _ _ _ _ _ hm1 x).mp hx
    subst hxe
    rw [get_combineRow_right lr rr0 _ _ _ _ "ghg_per_capita"
      (wf_row_keys_ne bt hwb lr hlr _ hgb) (by decide)
      (overlapCols_contains_false_of_not_left _ _ _ _ hgb) ncBtG ncGhG]
    exact hng rr0 hrr0
  obtain ⟨M2, hm2⟩ : ∃ M2, Frame.merge M1 road ["country", "year"] "_x" "_y" = some M2 :=
    ⟨_, Frame.merge_eq_some M1 road _ _ _
      (fun k hk => by
        simp only [List.mem_cons, List.not_mem_nil, or_false] at hk
        rcases hk with rfl | rfl
        · exact h1c
        · exact h1y)
      (fun k hk => by
        simp only [List.mem_cons, List.not_mem_nil, or_false] at hk
        rcases hk with rfl | rfl
        · exact hrc
        · exact hry)⟩
  have hcols2 : M2.cols = mergeCols M1 road ["country", "year"] "_x" "_y" :=
    merge_cols_eq _ _ _ _ _ _ hm2
  have h2s : "share_buses_trains" ∈ M2.cols := by
    rw [hcols2]
    exact mem_mergeCols_left _ _ _ _ _ _ h1s
      (overlapCols_contains_false_of_not_right _ _ _ _ hsr)
  have h2g : "ghg_per_capita" ∈ M2.cols := by
    rw [hcols2]
    exact mem_mergeCols_left _ _ _ _ _ _ h1g
      (overlapCols_contains_false_of_not_right _ _ _ _ hgr)
  have h2r : "road_co2_per_capita_g" ∈ M2.cols := by
    rw [hcols2]
    exact mem_mergeCols_right _ _ _ _ _ _ hrdr (by decide)
      (overlapCols_contains_false_of_not_left _ _ _ _ h1r)
  have h2vs : ∀ x ∈ M2.rows, Row.get x "share_buses_trains" ≠ Cell.vna := by
    intro x hx
    obtain ⟨lr, hlr, rr0, hrr0, _, hxe⟩ := (mem_merge_rows_iff _ _ _ _ _ _ hm2 x).mp hx
    subst hxe
    rw [get_combineRow_left lr rr0 _ _ _ _ "share_buses_trains"
      (overlapCols_contains_false_of_not_right _ _ _ _ hsr) ncXS ncYS
      (fun p hp _ => wf_row_keys_ne road hwr rr0 hrr0 _ hsr p hp)]
    exact h1vs lr hlr
  have h2vg : ∀ x ∈ M2.rows, Row.get x "ghg_per_capita" ≠ Cell.vna := by
    intro x hx
    obtain ⟨lr, hlr, rr0, hrr0, _, hxe⟩ := (mem_merge_rows_iff _ _ _ _ _ _ hm2 x).mp hx
    subst hxe
    rw [get_combineRow_left lr rr0 _ _ _ _ "ghg_per_capita"
      (overlapCols_contains_false_of_not_right _ _ _ _ hgr) ncXG ncYG
      (fun p hp _ => wf_row_keys_ne road hwr rr0 hrr0 _ hgr p hp)]
    exact h1vg lr hlr
  have h2vr : ∀ x ∈ M2.rows, Row.get x "road_co2_per_capita_g" ≠ Cell.vna := by
    intro x hx
    obtain ⟨lr, hlr, rr0, hrr0, _, hxe⟩ := (mem_merge_rows_iff _ _ _ _ _ _ hm2 x).mp hx
    subst hxe
    rw [get_combineRow_right lr rr0 _ _ _ _ "road_co2_per_capita_g"
      (wf_row_keys_ne M1 hw1 lr hlr _ h1r) (by decide)
      (overlapCols_contains_false_of_not_left _ _ _ _ h1r) ncXR ncYR]
    exact hnr rr0 hrr0
  have hPR : requiredIndicators.filter (fun c => M2.cols.contains c) = requiredIndicators := by
    simp [requiredIndicators, List.filter_cons, h2s, h2g, h2r]
  have hout : integrate_datasets bt ghg road = some (M2.dropnaSubset requiredIndicators) := by
    rw [integrate_eq bt ghg road M1 M2 hm1 hm2, hPR, if_neg (by decide)]
  refine ⟨M2.dropnaSubset requiredIndicators, hout, fun c y => ?_⟩
  constructor
  · rintro ⟨x, hx, hxc, hxy⟩
    have hx2 : x ∈ M2.rows := (List.mem_filter.mp hx).1
    have h12 := (hasKey_merge_iff M1 road "_x" "_y" M2 hm2 ncXC ncXY ncYC ncYY c y).mp
      ⟨x, hx2, hxc, hxy⟩
    have hbG := (hasKey_merge_iff bt ghg "_bt" "_ghg" M1 hm1 ncBtC ncBtY ncGhC ncGhY c y).mp
      h12.1
    exact ⟨hbG.1, hbG.2, h12.2⟩
  · rintro ⟨hB, hG, hR⟩
    have h1 : M1.hasKey c y :=
      (hasKey_merge_iff bt ghg "_bt" "_ghg" M1 hm1 ncBtC ncBtY ncGhC ncGhY c y).mpr ⟨hB, hG⟩
    obtain ⟨x, hx, hxc, hxy⟩ :=
      (hasKey_merge_iff M1 road "_x" "_y" M2 hm2 ncXC ncXY ncYC ncYY c y).mpr ⟨h1, hR⟩
    refine ⟨x, List.mem_filter.mpr ⟨hx, ?_⟩, hxc, hxy⟩
    rw [List.all_eq_true]
    intro k hk
    simp only [requiredIndicators, List.mem_cons, List.not_mem_nil, or_false] at hk
    rcases hk with rfl | rfl | rfl
    · exact decide_eq_true (h2vs x hx)
    · exact decide_eq_true (h2vg x hx)
    · exact decide_eq_true (h2vr x hx)

/-- Witness for C2 at concrete normalized frames: `DE/2019` is in all three
inputs (and survives), `FR/2018` and `ES/2019` are each missing from some
input. -/
theorem c2_witness :
    ∃ out,
      integrate_datasets
          (Frame.mk ["country", "year", "share_buses_trains"]
            [[("country", Cell.vstr "DE"), ("year", Cell.vnum 2019),
              ("share_buses_trains", Cell.vnum 40)],
             [("country", Cell.vstr "FR"), ("year", Cell.vnum 2018),
              ("share_buses_trains", Cell.vnum 30)]])
          (Frame.mk ["country", "year", "ghg_per_capita"]
            [[("country", Cell.vstr "DE"), ("year", Cell.vnum 2019),
              ("ghg_per_capita", Cell.vnum 8)]])
          (Frame.mk ["country", "year", "road_co2_per_capita_g"]
            [[("country", Cell.vstr "DE"), ("year", Cell.vnum 2019),
              ("road_co2_per_capita_g", Cell.vnum 1800)],
             [("country", Cell.vstr "ES"), ("year", Cell.vnum 2019),
              ("road_co2_per_capita_g", Cell.vnum 100)]]) = some out ∧
        ∀ c y : Cell,
          (out.hasKey c y ↔
            ((Frame.mk ["country", "year", "share_buses_trains"]
              [[("country", Cell.vstr "DE"), ("year", Cell.vnum 2019),
                ("share_buses_trains", Cell.vnum 40)],
               [("country", Cell.vstr "FR"), ("year", Cell.vnum 2018),
                ("share_buses_trains", Cell.vnum 30)]]).hasKey c y ∧
             (Frame.mk ["country", "year", "ghg_per_capita"]
              [[("country", Cell.vstr "DE"), ("year", Cell.vnum 2019),
                ("ghg_per_capita", Cell.vnum 8)]]).hasKey c y ∧
             (Frame.mk ["country", "year", "road_co2_per_capita_g"]
              [[("country", Cell.vstr "DE"), ("year", Cell.vnum 2019),
                ("road_co2_per_capita_g", Cell.vnum 1800)],
               [("country", Cell.vstr "ES"), ("year", Cell.vnum 2019),
                ("road_co2_per_capita_g", Cell.vnum 100)]]).hasKey c y)) :=
  c2_integration_key_iff _ _ _
    (by decide) (by decide) (by decide) (by decide) (by decide) (by decide)
    (by decide) (by decide) (by decide) (by decide) (by decide) (by decide)
    (by decide) (by decide) (by decide) (by decide) (by decide) (by decide)
    (by decide) (by decide) (by decide)

/-! ### Stage lemmas for the normalizer tail and the aggregation -/

theorem Row.mapCol_keys (r : Row) (c : String) (f : Cell → Cell) :
    (Row.mapCol r c f).map Prod.fst = r.map Prod.fst := by
  unfold Row.mapCol
  rw [List.map_map]
  apply List.map_congr_left
  intro p _
  by_cases h : p.1 = c <;> simp [h]

theorem coerceYear_cols (t : Frame) : (coerceYear t).cols = t.cols := by
  unfold coerceYear
  split <;> rfl

theorem roadFilter_cols (t : Frame) : (roadFilter t).cols = t.cols := by
  simp only [roadFilter]
  split <;> rfl

theorem roadFilter_rows_subset (t : Frame) :
    ∀ x ∈ (roadFilter t).rows, x ∈ t.rows := by
  intro x hx
  simp only [roadFilter] at hx
  split at hx
  · exact (List.mem_filter.mp (List.mem_filter.mp hx).1).1
  · exact (List.mem_filter.mp hx).1

theorem coerceNumericCol_cols (t : Frame) (c : String) :
    (coerceNumericCol t c).cols = t.cols := by
  unfold coerceNumericCol
  split <;> rfl

theorem coerceNumericCols_cols (t : Frame) : (coerceNumericCols t).cols = t.cols := by
  unfold coerceNumericCols
  rw [coerceNumericCol_cols, coerceNumericCol_cols, coerceNumericCol_cols,
    coerceNumericCol_cols]

theorem aggregateCountry_eq (t0 : Frame) (h : ∀ c ∈ aggNeededCols, c ∈ t0.cols) :
    aggregateCountry t0 = some (Frame.mk aggOutCols
      ((groupKeys (coerceNumericCols t0)).map (summaryRow (coerceNumericCols t0)))) := by
  have hcond : (aggNeededCols.all fun c => (coerceNumericCols t0).cols.contains c) = true := by
    rw [List.all_eq_true]
    intro c hc
    show (coerceNumericCols t0).cols.contains c = true
    rw [coerceNumericCols_cols]
    exact (List.contains_eq_true_iff _ _).mpr (h c hc)
  unfold aggregateCountry
  rw [if_pos hcond]

theorem summaryRow_kg (t : Frame) (k : Cell) :
    Row.get (summaryRow t k) "road_co2_per_capita_kg" =
      cellDiv1000 (Row.get (summaryRow t k) "road_co2_per_capita_g") := by
  unfold summaryRow
  simp [Row.get_cons]

/-- Looking the renamed indicator up in a projected-then-renamed row. -/
theorem get_renamed_select (r : Row) (desired P : List String) (valueCol : String)
    (hPsub : ∀ c ∈ P, c ∈ desired)
    (hdes : ∀ c ∈ desired,
      (renameStr [("geo", "country"), ("TIME_PERIOD", "year"), ("OBS_VALUE", valueCol)] c
        = valueCol ↔ c = "OBS_VALUE")) :
    Row.get ((P.map (fun c => (c, Row.get r c))).map
        (fun p => (renameStr [("geo", "country"), ("TIME_PERIOD", "year"),
          ("OBS_VALUE", valueCol)] p.1, p.2))) valueCol =
      if "OBS_VALUE" ∈ P then Row.get r "OBS_VALUE" else Cell.vna := by
  rw [Row.get_map_key_pre _ _ valueCol "OBS_VALUE" ?hf]
  · exact Row.get_select r P "OBS_VALUE"
  case hf =>
    intro p hp
    obtain ⟨c, hc, hpe⟩ := List.mem_map.mp hp
    rw [← hpe]
    exact hdes c (hPsub c hc)

theorem keys_renamed_select (r : Row) (P : List String) (m : List (String × String)) :
    (((P.map (fun c => (c, Row.get r c))).map
      (fun p => (renameStr m p.1, p.2))).map Prod.fst) = P.map (renameStr m) := by
  rw [List.map_map, List.map_map]
  rfl

/-- Any row of `coerceYear t` comes from a row of `t` with the same keys
and the same cells outside the `year` column. -/
theorem coerceYear_row_source (t : Frame) :
    ∀ y ∈ (coerceYear t).rows, ∃ y0 ∈ t.rows,
      (∀ k, k ≠ "year" → Row.get y k = Row.get y0 k) ∧
        y.map Prod.fst = y0.map Prod.fst := by
  unfold coerceYear
  split
  · intro y hy
    obtain ⟨y1, hy1, rfl⟩ := List.mem_map.mp hy
    have hy1f := (List.mem_filter.mp hy1).1
    obtain ⟨y2, hy2, rfl⟩ := List.mem_map.mp hy1f
    refine ⟨y2, hy2, ?_, ?_⟩
    · intro k hk
      rw [Row.get_mapCol_ne _ _ _ _ (Ne.symm hk), Row.get_mapCol_ne _ _ _ _ (Ne.symm hk)]
    · rw [Row.mapCol_keys, Row.mapCol_keys]
  · intro y hy
    exact ⟨y, hy, fun k _ => rfl, rfl⟩

/-- The indicator value of every `cleanTail` output row is the `toNumeric`
coercion of the source row's raw `OBS_VALUE` (or missing when `OBS_VALUE`
is not among the projected columns): no rescaling is applied. -/
theorem cleanTail_value (desired : List String) (valueCol : String) (df1 : Frame)
    (hy : "year" ≠ valueCol) (hOBS : "OBS_VALUE" ∈ desired)
    (hdes : ∀ c ∈ desired,
      (renameStr [("geo", "country"), ("TIME_PERIOD", "year"), ("OBS_VALUE", valueCol)] c
        = valueCol ↔ c = "OBS_VALUE")) :
    ∀ x ∈ (cleanTail desired valueCol df1).rows, ∃ r ∈ df1.rows,
      Row.get x valueCol =
        (if "OBS_VALUE" ∈ desired.filter (fun c => df1.cols.contains c) then
          toNumeric (Row.get r "OBS_VALUE") else Cell.vna) := by
  intro x hx
  have hPsub : ∀ c ∈ desired.filter (fun c => df1.cols.contains c), c ∈ desired :=
    fun c hc => (List.mem_filter.mp hc).1
  have hOBSmap : "OBS_VALUE" ∈ desired.filter (fun c => df1.cols.contains c) ↔
      valueCol ∈ (desired.filter (fun c => df1.cols.contains c)).map
        (renameStr [("geo", "country"), ("TIME_PERIOD", "year"), ("OBS_VALUE", valueCol)]) := by
    constructor
    · intro h
      exact List.mem_map.mpr ⟨"OBS_VALUE", h, (hdes _ hOBS).mpr rfl⟩
    · intro h
      obtain ⟨c, hc, hce⟩ := List.mem_map.mp h
      exact ((hdes c (hPsub c hc)).mp hce) ▸ hc
  have hYcols : (coerceYear (renameCore valueCol (selectPresent desired df1))).cols =
      (desired.filter (fun c => df1.cols.contains c)).map
        (renameStr [("geo", "country"), ("TIME_PERIOD", "year"), ("OBS_VALUE", valueCol)]) := by
    rw [coerceYear_cols]
    rfl
  unfold cleanTail coerceValue at hx
  split at hx
  · rename_i hvc
    obtain ⟨y, hyY, rfl⟩ := List.mem_map.mp hx
    obtain ⟨y0, hy0, hyv, hyk⟩ := coerceYear_row_source _ y hyY
    obtain ⟨s, hs, rfl⟩ := List.mem_map.mp hy0
    obtain ⟨r, hr, rfl⟩ := List.mem_map.mp hs
    have hOP : "OBS_VALUE" ∈ desired.filter (fun c => df1.cols.contains c) := by
      rw [hYcols] at hvc
      exact hOBSmap.mpr hvc
    refine ⟨r, hr, ?_⟩
    rw [if_pos hOP]
    have hsome : ((y.find? (fun p => p.1 == valueCol)).isSome) := by
      rw [Row.find?_isSome_iff, hyk, keys_renamed_select]
      rw [hYcols] at hvc
      exact hvc
    rw [Row.get_mapCol_self, if_pos hsome]
    rw [hyv valueCol (Ne.symm hy)]
    rw [get_renamed_select r _ _ valueCol hPsub hdes, if_pos hOP]
  · rename_i hvc
    obtain ⟨y0, hy0, hyv, hyk⟩ := coerceYear_row_source _ x hx
    obtain ⟨s, hs, rfl⟩ := List.mem_map.mp hy0
    obtain ⟨r, hr, rfl⟩ := List.mem_map.mp hs
    have hOP : "OBS_VALUE" ∉ desired.filter (fun c => df1.cols.contains c) := by
      intro h
      apply hvc
      rw [hYcols]
      exact hOBSmap.mp h
    refine ⟨r, hr, ?_⟩
    rw [if_neg hOP]
    rw [hyv valueCol (Ne.symm hy)]
    rw [get_renamed_select r _ _ valueCol hPsub hdes, if_neg hOP]

/-! ### C6: unit conversion happens at the aggregation stage only -/

/-- C6.  (i) In every country summary the kilogram column is exactly the
mean gram column divided by 1000 — the conversion happens at the
aggregation stage; (ii) the road normalizer stores the raw `OBS_VALUE`
parsed as a float with no rescaling (grams, as published); (iii) the
Integrator copies the road indicator from the road input unchanged. -/
theorem c6_unit_conversion :
    (∀ t0 : Frame, (∀ c ∈ aggNeededCols, c ∈ t0.cols) →
      ∃ out, aggregateCountry t0 = some out ∧
        ∀ r ∈ out.rows,
          Row.get r "road_co2_per_capita_kg" =
            cellDiv1000 (Row.get r "road_co2_per_capita_g")) ∧
    (∀ t : Frame, t.wf → "indic_env" ∈ t.cols → "airpol" ∈ t.cols →
      ∀ x ∈ (clean_road_emissions t).rows, ∃ r ∈ t.rows,
        Row.get x "road_co2_per_capita_g" = toNumeric (Row.get r "OBS_VALUE")) ∧
    (∀ bt ghg road out : Frame, bt.wf → ghg.wf →
      "road_co2_per_capita_g" ∉ bt.cols → "road_co2_per_capita_g" ∉ ghg.cols →
      integrate_datasets bt ghg road = some out →
      ∀ x ∈ out.rows, ∃ rr ∈ road.rows,
        Row.get x "road_co2_per_capita_g" = Row.get rr "road_co2_per_capita_g") := by
  refine ⟨?_, ?_, ?_⟩
  · intro t0 hcols
    refine ⟨_, aggregateCountry_eq t0 hcols, ?_⟩
    intro r hr
    obtain ⟨k, _, rfl⟩ := List.mem_map.mp hr
    exact summaryRow_kg _ k
  · intro t hw hi ha x hx
    rw [clean_road_emissions,
      if_neg (fun h => h.elim (fun hA => hA hi) (fun hB => hB ha))] at hx
    obtain ⟨r, hr, hval⟩ := cleanTail_value _ "road_co2_per_capita_g" (roadFilter t)
      (by decide) (by decide) (by decide) x hx
    have hrt : r ∈ t.rows := roadFilter_rows_subset t r hr
    refine ⟨r, hrt, ?_⟩
    by_cases hOP : "OBS_VALUE" ∈
        (["geo", "TIME_PERIOD", "OBS_VALUE", "OBS_FLAG", "unit", "indic_env",
          "airpol"]).filter (fun c => (roadFilter t).cols.contains c)
    · rw [hval, if_pos hOP]
    · rw [hval, if_neg hOP]
      have hOBSt : "OBS_VALUE" ∉ t.cols := by
        intro hmem
        apply hOP
        refine List.mem_filter.mpr ⟨by decide, ?_⟩
        show (roadFilter t).cols.contains "OBS_VALUE" = true
        rw [roadFilter_cols]
        exact (List.contains_eq_true_iff _ _).mpr hmem
      rw [Row.get_eq_vna_of_not_mem r _ (by rw [hw r hrt]; exact hOBSt)]
      rfl
  · intro bt ghg road out hwb hwg hrb hrg hint x hx
    unfold integrate_datasets at hint
    split at hint
    · exact Option.noConfusion hint
    · rename_i M1 hm1
      split at hint
      · exact Option.noConfusion hint
      · rename_i M2 hm2
        simp only [Option.some.injEq] at hint
        have hx2 : x ∈ M2.rows := by
          subst hint
          by_cases hemp :
              (requiredIndicators.filter (fun c => M2.cols.contains c)).isEmpty
          · rw [if_pos hemp] at hx
            exact hx
          · rw [if_neg hemp] at hx
            exact (List.mem_filter.mp hx).1
        obtain ⟨m1r, hm1r, rr, hrr, _, rfl⟩ :=
          (mem_merge_rows_iff _ _ _ _ _ _ hm2 x).mp hx2
        have hw1 : M1.wf := Frame.merge_wf _ _ _ _ _ _ hm1 hwb hwg
        have h1r : "road_co2_per_capita_g" ∉ M1.cols := by
          rw [merge_cols_eq _ _ _ _ _ _ hm1]
          exact not_mem_mergeCols _ _ _ _ _ _ hrb hrg
            (noClash_all "_bt" (by simp) _ (by simp))
            (noClash_all "_ghg" (by simp) _ (by simp))
        rw [get_combineRow_right m1r rr _ _ _ _ "road_co2_per_capita_g"
          (wf_row_keys_ne M1 hw1 m1r hm1r _ h1r) (by decide)
          (overlapCols_contains_false_of_not_left _ _ _ _ h1r)
          (noClash_all "_x" (by simp) _ (by simp))
          (noClash_all "_y" (by simp) _ (by simp))]
        exact ⟨rr, hrr, rfl⟩

/-- Witness for C6: the three parts applied at concrete frames, plus a
concrete check that a road indicator of 1500 grams aggregates to 1.5
kilograms in the country summary. -/
theorem c6_witness :
    (∃ out, aggregateCountry (Frame.mk aggNeededCols []) = some out ∧
      ∀ r ∈ out.rows,
        Row.get r "road_co2_per_capita_kg" =
          cellDiv1000 (Row.get r "road_co2_per_capita_g")) ∧
    (∀ x ∈ (clean_road_emissions (Frame.mk ["indic_env", "airpol", "OBS_VALUE"]
        [[("indic_env", Cell.vstr "AEMIS_RES"), ("airpol", Cell.vstr "CO2"),
          ("OBS_VALUE", Cell.vstr "1500")]])).rows,
      ∃ r ∈ [[("indic_env", Cell.vstr "AEMIS_RES"), ("airpol", Cell.vstr "CO2"),
          ("OBS_VALUE", Cell.vstr "1500")]],
        Row.get x "road_co2_per_capita_g" = toNumeric (Row.get r "OBS_VALUE")) ∧
    (∀ x ∈ c1Out.rows, ∃ rr ∈ c1Road.rows,
      Row.get x "road_co2_per_capita_g" = Row.get rr "road_co2_per_capita_g") ∧
    Row.get (summaryRow (Frame.mk
        ["country", "year", "share_buses_trains", "road_co2_per_capita_g", "ghg_per_capita"]
        [[("country", Cell.vstr "DE"), ("year", Cell.vnum 2019),
          ("share_buses_trains", Cell.vnum 40), ("road_co2_per_capita_g", Cell.vnum 1500),
          ("ghg_per_capita", Cell.vnum 8)]]) (Cell.vstr "DE"))
      "road_co2_per_capita_kg" = Cell.vnum (3 / 2) := by
  refine ⟨c6_unit_conversion.1 _ (by decide),
    c6_unit_conversion.2.1 _ (by decide) (by decide) (by decide),
    c6_unit_conversion.2.2 c1BT c1GHG c1Road c1Out (by decide) (by decide) (by decide)
      (by decide) (by decide), ?_⟩
  simp [summaryRow, groupRows, colMean, numVals, cellDiv1000, Row.get_cons,
    List.filterMap, List.sum_cons, List.sum_nil]
  norm_num

/-! ### Aggregation lemmas for C5 -/

theorem summaryRow_country (t : Frame) (k : Cell) :
    Row.get (summaryRow t k) "country" = k := by
  unfold summaryRow
  simp [Row.get_cons]

theorem summaryRow_share (t : Frame) (k : Cell) :
    Row.get (summaryRow t k) "share_buses_trains" =
      colMean (groupRows t k) "share_buses_trains" := by
  unfold summaryRow
  simp [Row.get_cons]

theorem summaryRow_road (t : Frame) (k : Cell) :
    Row.get (summaryRow t k) "road_co2_per_capita_g" =
      colMean (groupRows t k) "road_co2_per_capita_g" := by
  unfold summaryRow
  simp [Row.get_cons]

theorem summaryRow_ghg (t : Frame) (k : Cell) :
    Row.get (summaryRow t k) "ghg_per_capita" =
      colMean (groupRows t k) "ghg_per_capita" := by
  unfold summaryRow
  simp [Row.get_cons]

theorem summaryRow_year_min (t : Frame) (k : Cell) :
    Row.get (summaryRow t k) "year_min" = colMin (groupRows t k) "year" := by
  unfold summaryRow
  simp [Row.get_cons]

theorem summaryRow_year_max (t : Frame) (k : Cell) :
    Row.get (summaryRow t k) "year_max" = colMax (groupRows t k) "year" := by
  unfold summaryRow
  simp [Row.get_cons]

theorem summaryRow_years_count (t : Frame) (k : Cell) :
    Row.get (summaryRow t k) "years_count" = colNunique (groupRows t k) "year" := by
  unfold summaryRow
  simp [Row.get_cons]

theorem count_insertAsc (x : Cell) (l : List Cell) (y : Cell) :
    (insertAsc x l).count y = (x :: l).count y := by
  induction l with
  | nil => rfl
  | cons a l ih =>
    unfold insertAsc
    by_cases h : cellLe x a = true
    · rw [if_pos h]
    · rw [if_neg h]
      simp only [List.count_cons, ih]
      omega

theorem count_sortCells (l : List Cell) (y : Cell) : (sortCells l).count y = l.count y := by
  induction l with
  | nil => rfl
  | cons a l ih =>
    show (insertAsc a (sortCells l)).count y = _
    rw [count_insertAsc]
    simp only [List.count_cons, ih]

theorem mem_sortCells (l : List Cell) (y : Cell) : y ∈ sortCells l ↔ y ∈ l := by
  rw [← List.count_pos_iff, ← List.count_pos_iff, count_sortCells]

theorem foldl_min_mem (vs : List ℚ) (v : ℚ) : vs.foldl min v ∈ v :: vs := by
  induction vs generalizing v with
  | nil => simp
  | cons a l ih =>
    rw [List.foldl_cons]
    rcases List.mem_cons.mp (ih (min v a)) with h1 | h1
    · rw [h1]
      rcases min_choice v a with h2 | h2 <;> rw [h2] <;> simp
    · exact List.mem_cons_of_mem _ (List.mem_cons_of_mem _ h1)

theorem foldl_min_le (vs : List ℚ) (v : ℚ) : ∀ y ∈ v :: vs, vs.foldl min v ≤ y := by
  induction vs generalizing v with
  | nil =>
    intro y hy
    simp only [List.mem_cons, List.not_mem_nil, or_false] at hy
    rw [hy]
    exact le_rfl
  | cons a l ih =>
    intro y hy
    have hmin : l.foldl min (min v a) ≤ min v a :=
      ih (min v a) (min v a) (List.mem_cons_self _ _)
    rw [List.foldl_cons]
    rcases List.mem_cons.mp hy with h | h
    · rw [h]
      exact le_trans hmin (min_le_left v a)
    rcases List.mem_cons.mp h with h2 | h2
    · rw [h2]
      exact le_trans hmin (min_le_right v a)
    · exact ih (min v a) y (List.mem_cons_of_mem _ h2)

theorem foldl_max_mem (vs : List ℚ) (v : ℚ) : vs.foldl max v ∈ v :: vs := by
  induction vs generalizing v with
  | nil => simp
  | cons a l ih =>
    rw [List.foldl_cons]
    rcases List.mem_cons.mp (ih (max v a)) with h1 | h1
    · rw [h1]
      rcases max_choice v a with h2 | h2 <;> rw [h2] <;> simp
    · exact List.mem_cons_of_mem _ (List.mem_cons_of_mem _ h1)

theorem le_foldl_max (vs : List ℚ) (v : ℚ) : ∀ y ∈ v :: vs, y ≤ vs.foldl max v := by
  induction vs generalizing v with
  | nil =>
    intro y hy
    simp only [List.mem_cons, List.not_mem_nil, or_false] at hy
    rw [hy]
    exact le_rfl
  | cons a l ih =>
    intro y hy
    have hmax : max v a ≤ l.foldl max (max v a) :=
      ih (max v a) (max v a) (List.mem_cons_self _ _)
    rw [List.foldl_cons]
    rcases List.mem_cons.mp hy with h | h
    · rw [h]
      exact le_trans (le_max_left v a) hmax
    rcases List.mem_cons.mp h with h2 | h2
    · rw [h2]
      exact le_trans (le_max_right v a) hmax
    · exact ih (max v a) y (List.mem_cons_of_mem _ h2)

theorem numVals_eq_map (rows : List Row) (c : String)
    (h : ∀ rr ∈ rows, ∃ q, Row.get rr c = Cell.vnum q) :
    numVals rows c = rows.map (fun rr => qOf (Row.get rr c)) := by
  induction rows with
  | nil => rfl
  | cons a l ih =>
    obtain ⟨q, hq⟩ := h a (by simp)
    unfold numVals
    simp only [List.filterMap_cons, List.map_cons, hq, qOf]
    exact congrArg (List.cons q) (ih (fun rr hrr => h rr (by simp [hrr])))

theorem get_numeric_of_wf (t : Frame) (hw : t.wf) (rr : Row) (hrr : rr ∈ t.rows)
    (c : String) (hc : c ∈ t.cols)
    (hn : ∀ p ∈ rr, p.1 = c → ∃ q, p.2 = Cell.vnum q) :
    ∃ q, Row.get rr c = Cell.vnum q := by
  have hsome : (rr.find? (fun p => p.1 == c)).isSome :=
    (Row.find?_isSome_iff rr c).mpr (by rw [hw rr hrr]; exact hc)
  cases hf : rr.find? (fun p => p.1 == c) with
  | none => rw [hf] at hsome; cases hsome
  | some p =>
    have hpb := List.find?_some hf
    obtain ⟨q, hq⟩ := hn p (List.mem_of_find?_eq_some hf) (beq_iff_eq.mp hpb)
    refine ⟨q, ?_⟩
    unfold Row.get
    rw [hf]
    exact hq

theorem list_map_eq_self {α : Type} (l : List α) (f : α → α)
    (h : ∀ a ∈ l, f a = a) : l.map f = l := by
  induction l with
  | nil => rfl
  | cons a l ih =>
    rw [List.map_cons, h a (by simp), ih (fun a ha => h a (by simp [ha]))]

theorem coerceNumericCol_eq_self (t : Frame) (c : String)
    (h : ∀ r ∈ t.rows, ∀ p ∈ r, p.1 = c → toNumeric p.2 = p.2) :
    coerceNumericCol t c = t := by
  unfold coerceNumericCol
  split
  · show t.mapCol c toNumeric = t
    unfold Frame.mapCol
    cases t with
    | mk cols rows =>
      simp only [Frame.mk.injEq, true_and]
      exact list_map_eq_self rows _ (fun r hr => Row.mapCol_eq_self r c _ (h r hr))
  · rfl

theorem Cell.isNum_iff (c : Cell) : c.isNum = true ↔ ∃ q, c = Cell.vnum q := by
  cases c <;> simp [Cell.isNum]

/-! ### C5: country aggregation -/

/-- C5.  For every integrated frame (well-formed, with the five aggregation
columns, and numeric cells in the four numeric columns — the
IntegratedRecord invariant), the Country Aggregator produces exactly one
summary row per distinct country; each summary row carries the arithmetic
mean of the country's rows for the three indicators (stated as
`mean * group size = group sum`), the minimum and maximum year, and the
number of distinct years; a single-year country yields a valid summary. -/
theorem c5_aggregation (t : Frame) (hw : t.wf)
    (hcols : ∀ c ∈ aggNeededCols, c ∈ t.cols)
    (hnum : ∀ r ∈ t.rows, ∀ p ∈ r,
      p.1 ∈ (["share_buses_trains", "road_co2_per_capita_g", "ghg_per_capita",
        "year"] : List String) → (p.2).isNum = true) :
    ∃ out, aggregateCountry t = some out ∧
      (∀ k : Cell,
        (out.rows.filter (fun r => decide (Row.get r "country" = k))).length =
          if k ∈ t.rows.filterMap (fun r =>
              match Row.get r "country" with
              | Cell.vna => none
              | c => some c) then 1 else 0) ∧
      (∀ r ∈ out.rows,
        Row.get r "country" ≠ Cell.vna ∧
        groupRows t (Row.get r "country") ≠ [] ∧
        (∀ c ∈ (["share_buses_trains", "road_co2_per_capita_g",
            "ghg_per_capita"] : List String),
          ∃ q, Row.get r c = Cell.vnum q ∧
            q * ((groupRows t (Row.get r "country")).length : ℚ) =
              ((groupRows t (Row.get r "country")).map
                (fun rr => qOf (Row.get rr c))).sum) ∧
        (∃ m, Row.get r "year_min" = Cell.vnum m ∧
          m ∈ (groupRows t (Row.get r "country")).map
            (fun rr => qOf (Row.get rr "year")) ∧
          ∀ yv ∈ (groupRows t (Row.get r "country")).map
            (fun rr => qOf (Row.get rr "year")), m ≤ yv) ∧
        (∃ m, Row.get r "year_max" = Cell.vnum m ∧
          m ∈ (groupRows t (Row.get r "country")).map
            (fun rr => qOf (Row.get rr "year")) ∧
          ∀ yv ∈ (groupRows t (Row.get r "country")).map
            (fun rr => qOf (Row.get rr "year")), yv ≤ m) ∧
        Row.get r "years_count" =
          Cell.vnum ((((groupRows t (Row.get r "country")).map
            (fun rr => qOf (Row.get rr "year"))).dedup.length : ℕ) : ℚ)) := by
  have hco : coerceNumericCols t = t := by
    unfold coerceNumericCols
    rw [coerceNumericCol_eq_self t "share_buses_trains"
        (fun r hr p hp hpc => by
          obtain ⟨q, hq⟩ := (Cell.isNum_iff _).mp (hnum r hr p hp (by rw [hpc]; decide))
          rw [hq]
          rfl),
      coerceNumericCol_eq_self t "road_co2_per_capita_g"
        (fun r hr p hp hpc => by
          obtain ⟨q, hq⟩ := (Cell.isNum_iff _).mp (hnum r hr p hp (by rw [hpc]; decide))
          rw [hq]
          rfl),
      coerceNumericCol_eq_self t "ghg_per_capita"
        (fun r hr p hp hpc => by
          obtain ⟨q, hq⟩ := (Cell.isNum_iff _).mp (hnum r hr p hp (by rw [hpc]; decide))
          rw [hq]
          rfl),
      coerceNumericCol_eq_self t "year"
        (fun r hr p hp hpc => by
          obtain ⟨q, hq⟩ := (Cell.isNum_iff _).mp (hnum r hr p hp (by rw [hpc]; decide))
          rw [hq]
          rfl)]
  have hagg : aggregateCountry t =
      some (Frame.mk aggOutCols ((groupKeys t).map (summaryRow t))) := by
    rw [aggregateCountry_eq t hcols, hco]
  refine ⟨_, hagg, ?_, ?_⟩
  · intro k
    show (((groupKeys t).map (summaryRow t)).filter
      (fun r => decide (Row.get r "country" = k))).length = _
    rw [← List.countP_eq_length_filter, List.countP_map]
    have hcongr : List.countP
        ((fun r => decide (Row.get r "country" = k)) ∘ summaryRow t) (groupKeys t) =
        List.countP (fun x => x == k) (groupKeys t) := by
      apply List.countP_congr
      intro k0 _
      show ((fun r => decide (Row.get r "country" = k)) ∘ summaryRow t) k0 = true ↔
        (k0 == k) = true
      simp only [Function.comp_apply]
      rw [summaryRow_country]
      exact Iff.rfl
    rw [hcongr]
    show (groupKeys t).count k = _
    unfold groupKeys
    rw [count_sortCells, List.count_dedup]
  · intro r hr
    have hr2 : r ∈ ((groupKeys t).map (summaryRow t)) := hr
    obtain ⟨k, hkKeys, rfl⟩ := List.mem_map.mp hr2
    rw [summaryRow_country]
    have hkC : k ∈ t.rows.filterMap (fun r =>
        match Row.get r "country" with
        | Cell.vna => none
        | c => some c) := by
      have h1 : k ∈ ((t.rows.filterMap (fun r =>
          match Row.get r "country" with
          | Cell.vna => none
          | c => some c)).dedup) := (mem_sortCells _ k).mp hkKeys
      exact List.mem_dedup.mp h1
    obtain ⟨r0, hr0, hfn⟩ := List.mem_filterMap.mp hkC
    have hkval : Row.get r0 "country" = k ∧ k ≠ Cell.vna := by
      cases hgc : Row.get r0 "country" with
      | vna => rw [hgc] at hfn; exact Option.noConfusion hfn
      | vstr s =>
        rw [hgc] at hfn
        have := Option.some.inj hfn
        exact ⟨this, this ▸ (by intro h; cases h)⟩
      | vnum q =>
        rw [hgc] at hfn
        have := Option.some.inj hfn
        exact ⟨this, this ▸ (by intro h; cases h)⟩
    have hr0g : r0 ∈ groupRows t k :=
      List.mem_filter.mpr ⟨hr0, decide_eq_true hkval.1⟩
    have hgne : groupRows t k ≠ [] := fun h => by rw [h] at hr0g; cases hr0g
    have hsub : ∀ rr ∈ groupRows t k, rr ∈ t.rows :=
      fun rr hrr => (List.mem_filter.mp hrr).1
    have hnv : ∀ c ∈ (["share_buses_trains", "road_co2_per_capita_g",
        "ghg_per_capita", "year"] : List String), ∀ rr ∈ groupRows t k,
        ∃ q, Row.get rr c = Cell.vnum q := by
      intro c hc4 rr hrr
      have hc4b := hc4
      simp only [List.mem_cons, List.not_mem_nil, or_false] at hc4b
      have hct : c ∈ t.cols := by
        apply hcols
        rcases hc4b with rfl | rfl | rfl | rfl <;> decide
      exact get_numeric_of_wf t hw rr (hsub rr hrr) c hct
        (fun p hp hpc =>
          (Cell.isNum_iff _).mp (hnum rr (hsub rr hrr) p hp (hpc ▸ hc4)))
    have h34 : ∀ c ∈ (["share_buses_trains", "road_co2_per_capita_g",
        "ghg_per_capita"] : List String),
        c ∈ (["share_buses_trains", "road_co2_per_capita_g", "ghg_per_capita",
          "year"] : List String) := by
      intro c h
      simp only [List.mem_cons, List.not_mem_nil, or_false] at h ⊢
      tauto
    refine ⟨hkval.2, hgne, ?_, ?_, ?_, ?_⟩
    · intro c hc3
      have hmap := numVals_eq_map (groupRows t k) c (hnv c (h34 c hc3))
      cases hL : numVals (groupRows t k) c with
      | nil =>
        exfalso
        rw [hL] at hmap
        exact hgne (List.map_eq_nil_iff.mp hmap.symm)
      | cons v vs =>
        have hget : Row.get (summaryRow t k) c = colMean (groupRows t k) c := by
          simp only [List.mem_cons, List.not_mem_nil, or_false] at hc3
          rcases hc3 with rfl | rfl | rfl
          · exact summaryRow_share t k
          · exact summaryRow_road t k
          · exact summaryRow_ghg t k
        refine ⟨(v :: vs).sum / (((v :: vs).length : ℕ) : ℚ), ?_, ?_⟩
        · rw [hget]
          unfold colMean
          rw [hL]
        · have hlen : ((v :: vs).length : ℕ) = (groupRows t k).length := by
            rw [← hL, hmap, List.length_map]
          have hlq : (((v :: vs).length : ℕ) : ℚ) ≠ 0 :=
            Nat.cast_ne_zero.mpr (by simp)
          rw [hlen] at hlq ⊢
          rw [div_mul_cancel₀ _ hlq, ← hmap, hL]
    · have hmap := numVals_eq_map (groupRows t k) "year"
        (hnv "year" (by decide) )
      cases hL : numVals (groupRows t k) "year" with
      | nil =>
        exfalso
        rw [hL] at hmap
        exact hgne (List.map_eq_nil_iff.mp hmap.symm)
      | cons v vs =>
        refine ⟨vs.foldl min v, ?_, ?_, ?_⟩
        · rw [summaryRow_year_min]
          unfold colMin
          rw [hL]
        · rw [← hmap, hL]
          exact foldl_min_mem vs v
        · intro yv hyv
          rw [← hmap, hL] at hyv
          exact foldl_min_le vs v yv hyv
    · have hmap := numVals_eq_map (groupRows t k) "year"
        (hnv "year" (by decide))
      cases hL : numVals (groupRows t k) "year" with
      | nil =>
        exfalso
        rw [hL] at hmap
        exact hgne (List.map_eq_nil_iff.mp hmap.symm)
      | cons v vs =>
        refine ⟨vs.foldl max v, ?_, ?_, ?_⟩
        · rw [summaryRow_year_max]
          unfold colMax
          rw [hL]
        · rw [← hmap, hL]
          exact foldl_max_mem vs v
        · intro yv hyv
          rw [← hmap, hL] at hyv
          exact le_foldl_max vs v yv hyv
    · rw [summaryRow_years_count]
      unfold colNunique
      rw [numVals_eq_map (groupRows t k) "year" (hnv "year" (by decide))]

/-- Witness for C5 at `c5Frame` (a country with rows at years 2015 and 2018
and a single-year country). -/
theorem c5_witness :
    ∃ out, aggregateCountry c5Frame = some out ∧
      (∀ k : Cell,
        (out.rows.filter (fun r => decide (Row.get r "country" = k))).length =
          if k ∈ c5Frame.rows.filterMap (fun r =>
              match Row.get r "country" with
              | Cell.vna => none
              | c => some c) then 1 else 0) ∧
      (∀ r ∈ out.rows,
        Row.get r "country" ≠ Cell.vna ∧
        groupRows c5Frame (Row.get r "country") ≠ [] ∧
        (∀ c ∈ (["share_buses_trains", "road_co2_per_capita_g",
            "ghg_per_capita"] : List String),
          ∃ q, Row.get r c = Cell.vnum q ∧
            q * ((groupRows c5Frame (Row.get r "country")).length : ℚ) =
              ((groupRows c5Frame (Row.get r "country")).map
                (fun rr => qOf (Row.get rr c))).sum) ∧
        (∃ m, Row.get r "year_min" = Cell.vnum m ∧
          m ∈ (groupRows c5Frame (Row.get r "country")).map
            (fun rr => qOf (Row.get rr "year")) ∧
          ∀ yv ∈ (groupRows c5Frame (Row.get r "country")).map
            (fun rr => qOf (Row.get rr "year")), m ≤ yv) ∧
        (∃ m, Row.get r "year_max" = Cell.vnum m ∧
          m ∈ (groupRows c5Frame (Row.get r "country")).map
            (fun rr => qOf (Row.get rr "year")) ∧
          ∀ yv ∈ (groupRows c5Frame (Row.get r "country")).map
            (fun rr => qOf (Row.get rr "year")), yv ≤ m) ∧
        Row.get r "years_count" =
          Cell.vnum ((((groupRows c5Frame (Row.get r "country")).map
            (fun rr => qOf (Row.get rr "year"))).dedup.length : ℕ) : ℚ)) :=
  c5_aggregation c5Frame (by decide) (by decide) (by decide)
